import Mathlib

/-!
Verification of the truth-weaver simulation engine (src/lib/simulation.ts).

The engine is shallowly embedded: JS numbers are modelled as exact
rationals (positions, probabilities) and integers (ticks, ids, counts);
every Math.random() draw is injected as an oracle parameter (a rational
draw, a Bool recording the result of a comparison against a probability,
or a pre-shuffled list standing for the result of the
sort-by-random-comparator shuffle, which is always a permutation of its
input); a JS TypeError from a property access on an out-of-range array
index (undefined) is modelled as Option.none.
-/

namespace TruthWeaver

/-- The four node states of the SIR-with-awareness model (NodeState in
simulation.ts). -/
inductive NodeState where
  | healthy
  | infected
  | recovered
  | aware
deriving DecidableEq, Repr

/-- A simulation node (SimNode in simulation.ts). -/
structure SimNode where
  id : ℕ
  x : ℚ
  y : ℚ
  vx : ℚ
  vy : ℚ
  state : NodeState
  infectedAt : ℤ
  connections : List ℕ
deriving DecidableEq, Repr

/-- An undirected edge (SimEdge in simulation.ts). -/
structure SimEdge where
  source : ℕ
  target : ℕ
deriving DecidableEq, Repr

/-- A per-tick statistics snapshot (SimStats in simulation.ts). -/
structure SimStats where
  tick : ℤ
  healthy : ℕ
  infected : ℕ
  recovered : ℕ
  aware : ℕ
deriving DecidableEq, Repr

/-- The simulation configuration (SimConfig in simulation.ts). -/
structure SimConfig where
  nodeCount : ℕ
  connectionDensity : ℚ
  spreadProbability : ℚ
  recoveryTime : ℤ
  initialInfected : ℕ
deriving DecidableEq, Repr

/-- DEFAULT_CONFIG from simulation.ts. -/
def DEFAULT_CONFIG : SimConfig :=
  { nodeCount := 80, connectionDensity := 3, spreadProbability := 15/100,
    recoveryTime := 30, initialInfected := 2 }

/-- In-place update of one array slot, a no-op when the index is out of
range (used only where the JS code holds a live reference, so the
out-of-range case never fires there). -/
def modifyIdx {α : Type} (l : List α) (i : ℕ) (f : α → α) : List α :=
  match l[i]? with
  | some a => l.set i (f a)
  | none => l

/-- getStats from simulation.ts: per-state filter().length counts. -/
def getStats (nodes : List SimNode) (tick : ℤ) : SimStats :=
  { tick := tick
    healthy := (nodes.filter (fun n => n.state == NodeState.healthy)).length
    infected := (nodes.filter (fun n => n.state == NodeState.infected)).length
    recovered := (nodes.filter (fun n => n.state == NodeState.recovered)).length
    aware := (nodes.filter (fun n => n.state == NodeState.aware)).length }

/-- One neighbour visit of the infection loop in simulationTick:
reads updated[neighborId] (TypeError, i.e. none, when out of range), and
flips a healthy neighbour to infected stamped with the current tick when
the injected draw (Math.random() < spreadProbability) is true. -/
def spreadStep (tick : ℤ) (draw : Bool) (ns : List SimNode) (nbId : ℕ) :
    Option (List SimNode) :=
  match ns[nbId]? with
  | none => none
  | some nb =>
    if nb.state = NodeState.healthy then
      if draw then
        some (ns.set nbId { nb with state := NodeState.infected, infectedAt := tick })
      else some ns
    else some ns

/-- The body of simulationTick's per-node loop: an infected node tries to
infect each currently-healthy neighbour (in connection-list order, one
injected draw per list position), then recovers when
tick - infectedAt >= recoveryTime. -/
def processNode (cfg : SimConfig) (tick : ℤ) (draws : ℕ → Bool)
    (ns : List SimNode) (i : ℕ) : Option (List SimNode) :=
  match ns[i]? with
  | none => some ns
  | some nd =>
    if nd.state = NodeState.infected then
      match nd.connections.enum.foldlM
          (fun acc kv => spreadStep tick (draws kv.1) acc kv.2) ns with
      | none => none
      | some ns1 =>
        match ns1[i]? with
        | none => some ns1
        | some nd1 =>
          if cfg.recoveryTime ≤ tick - nd1.infectedAt then
            some (ns1.set i { nd1 with state := NodeState.recovered })
          else some ns1
    else some ns

/-- simulationTick from simulation.ts: copies the array (value semantics
make the copy the identity) and runs the per-node loop in index order
over the working copy, so a node infected earlier in the same tick
participates when its own turn comes (the deliberate same-tick cascade).
draws i k injects the Math.random() < spreadProbability comparison for
node index i and connection-list position k. -/
def simulationTick (nodes : List SimNode) (cfg : SimConfig) (tick : ℤ)
    (draws : ℕ → ℕ → Bool) : Option (List SimNode) :=
  (List.range nodes.length).foldlM
    (fun ns i => processNode cfg tick (draws i) ns i) nodes

/-- One neighbour visit of applyFactCheck's loop: reads updated[nId]
(none models the TypeError when nId is out of range) and flips a healthy
neighbour to aware when the injected coin (Math.random() < 0.5) is true. -/
def awareStep (draw : Bool) (ns : List SimNode) (nbId : ℕ) :
    Option (List SimNode) :=
  match ns[nbId]? with
  | none => none
  | some nb =>
    if nb.state = NodeState.healthy then
      if draw then some (ns.set nbId { nb with state := NodeState.aware })
      else some ns
    else some ns

/-- applyFactCheck from simulation.ts: reads updated[nodeId] (none models
the TypeError when nodeId is out of range), recovers an infected target,
then walks the target's connection list flipping healthy neighbours to
aware on a fair coin; coin k injects the Math.random() < 0.5 comparison
for connection-list position k. -/
def applyFactCheck (nodes : List SimNode) (nodeId : ℕ) (coin : ℕ → Bool) :
    Option (List SimNode) :=
  match nodes[nodeId]? with
  | none => none
  | some nd =>
    nd.connections.enum.foldlM
      (fun acc kv => awareStep (coin kv.1) acc kv.2)
      (if nd.state = NodeState.infected then
        nodes.set nodeId { nd with state := NodeState.recovered }
      else nodes)

/-- The indices of the currently healthy nodes, in array order
(the filter(n => n.state === 'healthy') step of applyAwarenessCampaign,
identifying each selected JS object reference by its array index). -/
def healthyIdx (nodes : List SimNode) : List ℕ :=
  (nodes.enum.filter (fun p => p.2.state == NodeState.healthy)).map Prod.fst

/-- applyAwarenessCampaign from simulation.ts: flips the first
min(count, shuffled.length) entries of the shuffled healthy subset to
aware, where count = Math.ceil(healthy * 0.2). In IEEE double arithmetic
Math.ceil(h * 0.2) equals the exact ceiling of h/5 for every realistic h
(the relative error of the literal 0.2 is below half an ulp of h/5),
embedded here as (h + 4) / 5 in natural-number arithmetic. shuf injects
the result of the sort-by-random-comparator shuffle of the healthy
references; the code guarantees it is a permutation of healthyIdx, which
the theorems take as a hypothesis. -/
def applyAwarenessCampaign (nodes : List SimNode) (shuf : List ℕ) :
    List SimNode :=
  (shuf.take (min (((healthyIdx nodes).length + 4) / 5) shuf.length)).foldl
    (fun acc idx => modifyIdx acc idx (fun nd => { nd with state := NodeState.aware }))
    nodes

/-- Node placement of generateNetwork step 1: padding 60, position
padding + Math.random() * (extent - 2 * padding); posX i, posY i inject
the two uniform draws in the unit interval. -/
def initNode (width height : ℚ) (posX posY : ℕ → ℚ) (i : ℕ) : SimNode :=
  { id := i
    x := 60 + posX i * (width - 60 * 2)
    y := 60 + posY i * (height - 60 * 2)
    vx := 0
    vy := 0
    state := NodeState.healthy
    infectedAt := -1
    connections := [] }

/-- Squared distance between two slots of the node array (comparing
squared distances orders candidate lists exactly as comparing the
Math.hypot distances the code sorts by). -/
def dist2 (nodes : List SimNode) (i j : ℕ) : ℚ :=
  match nodes[i]?, nodes[j]? with
  | some a, some b => (b.x - a.x) ^ 2 + (b.y - a.y) ^ 2
  | _, _ => 0

/-- The distance-sorted candidate list for node i: every other index,
sorted by ascending distance to node i (the map/filter/sort step of
generateNetwork). -/
def candList (nodes : List SimNode) (i : ℕ) : List ℕ :=
  List.insertionSort (fun j k => dist2 nodes i j ≤ dist2 nodes i k)
    ((List.range nodes.length).filter (fun j => j ≠ i))

/-- The per-node target degree of generateNetwork:
Math.max(1, Math.floor(connectionDensity + (Math.random() - 0.5) * 2));
r injects the uniform draw in the unit interval. -/
def targetConns (density r : ℚ) : ℕ :=
  (max 1 ⌊density + (r - 1/2) * 2⌋).toNat

/-- Append j to slot i's connection list. -/
def pushConn (nodes : List SimNode) (i j : ℕ) : List SimNode :=
  modifyIdx nodes i (fun nd => { nd with connections := nd.connections ++ [j] })

/-- The nodes[i].connections.includes(j) test of generateNetwork. -/
def hasConn (nodes : List SimNode) (i j : ℕ) : Bool :=
  match nodes[i]? with
  | some nd => j ∈ nd.connections
  | none => false

/-- The candidate walk of generateNetwork for node i: stop at the target
degree, skip already-connected candidates, otherwise accept on the
injected draw (Math.random() < exp(-dist / (maxDist * 0.15))) or
unconditionally for the first acceptance (added == 0), adding the edge
to both endpoints and to the edge list. -/
def edgeLoop (i : ℕ) (tc : ℕ) (accept : ℕ → Bool) :
    List (ℕ × ℕ) → List SimNode → List SimEdge → ℕ →
    List SimNode × List SimEdge
  | [], nodes, edges, _ => (nodes, edges)
  | (k, j) :: rest, nodes, edges, added =>
    if tc ≤ added then (nodes, edges)
    else if hasConn nodes i j then edgeLoop i tc accept rest nodes edges added
    else if accept k || added == 0 then
      edgeLoop i tc accept rest (pushConn (pushConn nodes i j) j i)
        (edges ++ [{ source := i, target := j }]) (added + 1)
    else edgeLoop i tc accept rest nodes edges added

/-- One iteration of generateNetwork's outer edge-creation loop: build
node i's distance-sorted candidate list and walk it. -/
def edgePass (density r : ℚ) (accept : ℕ → Bool) (i : ℕ)
    (st : List SimNode × List SimEdge) : List SimNode × List SimEdge :=
  edgeLoop i (targetConns density r) accept ((candList st.1 i).enum) st.1 st.2 0

/-- The seeding loop of generateNetwork: for i below initialInfected set
nodes[shuffled[i]] to infected at tick 0. Reading shuffled[i] past the
end of the shuffled id list yields undefined, and the subsequent
nodes[undefined].state assignment is a TypeError, modelled as none. -/
def seedInfected (nodes : List SimNode) (shuffled : List ℕ) (cnt : ℕ) :
    Option (List SimNode) :=
  (List.range cnt).foldlM
    (fun ns i =>
      match shuffled[i]? with
      | none => none
      | some idx =>
        match ns[idx]? with
        | none => none
        | some nd =>
          some (ns.set idx { nd with state := NodeState.infected, infectedAt := 0 }))
    nodes

/-- The node placement and edge creation of generateNetwork (steps 1-4):
the state after every node's edge pass, before seeding. accept i k
injects the Waxman acceptance draw for node i and candidate position k. -/
def genState (cfg : SimConfig) (width height : ℚ)
    (posX posY degDraw : ℕ → ℚ) (accept : ℕ → ℕ → Bool) :
    List SimNode × List SimEdge :=
  (List.range cfg.nodeCount).foldl
    (fun st i => edgePass cfg.connectionDensity (degDraw i) (accept i) i st)
    ((List.range cfg.nodeCount).map (initNode width height posX posY),
      ([] : List SimEdge))

/-- generateNetwork from simulation.ts: place the nodes, run the
edge-creation pass for every node index, then seed the initially
infected nodes. shuffled injects the shuffled id list (the code
guarantees a permutation of all node ids). -/
def generateNetwork (cfg : SimConfig) (width height : ℚ)
    (posX posY degDraw : ℕ → ℚ) (accept : ℕ → ℕ → Bool)
    (shuffled : List ℕ) : Option (List SimNode × List SimEdge) :=
  Option.map (fun ns => (ns, (genState cfg width height posX posY degDraw accept).2))
    (seedInfected (genState cfg width height posX posY degDraw accept).1
      shuffled cfg.initialInfected)

/-- One repulsion update of applyForces for the pair i < j. hyp injects
Math.hypot. -/
def repulsePair (hyp : ℚ → ℚ → ℚ) (nodes : List SimNode) (i j : ℕ) :
    List SimNode :=
  match nodes[i]?, nodes[j]? with
  | some a, some b =>
    let dx := b.x - a.x
    let dy := b.y - a.y
    let dist := max (hyp dx dy) 1
    let force := 800 / (dist * dist)
    let fx := dx / dist * force
    let fy := dy / dist * force
    let nodes1 := nodes.set i { a with vx := a.vx - fx, vy := a.vy - fy }
    modifyIdx nodes1 j (fun b1 => { b1 with vx := b1.vx + fx, vy := b1.vy + fy })
  | _, _ => nodes

/-- One spring update of applyForces along an edge; reading an endpoint
that is out of range is a TypeError, modelled as none. -/
def attractEdge (hyp : ℚ → ℚ → ℚ) (ns : List SimNode) (e : SimEdge) :
    Option (List SimNode) :=
  match ns[e.source]?, ns[e.target]? with
  | some a, some b =>
    let dx := b.x - a.x
    let dy := b.y - a.y
    let dist := hyp dx dy
    let force := (dist - 80) * (1/100)
    let fx := dx / max dist 1 * force
    let fy := dy / max dist 1 * force
    let ns1 := ns.set e.source { a with vx := a.vx + fx, vy := a.vy + fy }
    some (modifyIdx ns1 e.target (fun b1 => { b1 with vx := b1.vx - fx, vy := b1.vy - fy }))
  | _, _ => none

/-- The velocity reset at the top of applyForces. -/
def resetVel (nodes : List SimNode) : List SimNode :=
  nodes.map (fun n => { n with vx := 0, vy := 0 })

/-- The pairwise repulsion double loop of applyForces (j running from
i + 1 to n - 1). -/
def repulseAll (hyp : ℚ → ℚ → ℚ) (ns : List SimNode) : List SimNode :=
  (List.range ns.length).foldl
    (fun ns1 i => (List.range' (i + 1) (ns.length - (i + 1))).foldl
      (fun ns2 j => repulsePair hyp ns2 i j) ns1)
    ns

/-- The centering-gravity update of applyForces for one node. -/
def gravityStep (width height : ℚ) (nd : SimNode) : SimNode :=
  { nd with vx := nd.vx + (width / 2 - nd.x) * (2/1000),
            vy := nd.vy + (height / 2 - nd.y) * (2/1000) }

/-- The damped integration and clamping of applyForces for one node
(padding 40). -/
def integrateStep (width height : ℚ) (nd : SimNode) : SimNode :=
  { nd with x := max 40 (min (width - 40) (nd.x + nd.vx * (1/2))),
            y := max 40 (min (height - 40) (nd.y + nd.vy * (1/2))) }

/-- applyForces from simulation.ts: reset velocities, pairwise
inverse-square repulsion, spring attraction along edges, centering
gravity, then damped integration with clamping to the padded rectangle.
hyp injects Math.hypot. -/
def applyForces (nodes : List SimNode) (edges : List SimEdge)
    (width height : ℚ) (hyp : ℚ → ℚ → ℚ) : Option (List SimNode) :=
  match edges.foldlM (fun ns e => attractEdge hyp ns e)
      (repulseAll hyp (resetVel nodes)) with
  | none => none
  | some att =>
    some ((att.map (gravityStep width height)).map
      (integrateStep width height))

/-- Modelled from the spec: the per-node target degree claimed in §4.1,
max(1, round(connectionDensity + uniform(-1,1))); compared below with
the floor-based computation the code performs. -/
def specTargetDegree (density u : ℚ) : ℤ :=
  max 1 (round (density + u))

/-- A legal single edge of the state graph: stay put, healthy to
infected, infected to recovered, or healthy to aware. -/
abbrev StepOK (s t : NodeState) : Prop :=
  t = s ∨ (s = NodeState.healthy ∧ t = NodeState.infected) ∨
    (s = NodeState.infected ∧ t = NodeState.recovered) ∨
    (s = NodeState.healthy ∧ t = NodeState.aware)

/-- Slot-by-slot relation between two node arrays of equal length. -/
abbrev Pointwise (R : SimNode → SimNode → Prop) (a b : List SimNode) : Prop :=
  a.length = b.length ∧
    ∀ (i : ℕ) (x y : SimNode), a[i]? = some x → b[i]? = some y → R x y

/-- Everything one whole simulationTick can do to one slot: all fields
except state and infectedAt are untouched, and the slot either is
unchanged, was infected this tick, recovered from a prior infection
whose recovery threshold has passed, or (only when recoveryTime is not
positive) was infected this tick and immediately recovered. -/
abbrev TickRel (rt tick : ℤ) (x y : SimNode) : Prop :=
  y.id = x.id ∧ y.x = x.x ∧ y.y = x.y ∧ y.vx = x.vx ∧ y.vy = x.vy ∧
  y.connections = x.connections ∧
  ((y.state = x.state ∧ y.infectedAt = x.infectedAt) ∨
    (x.state = NodeState.healthy ∧ y.state = NodeState.infected ∧
      y.infectedAt = tick) ∨
    (x.state = NodeState.infected ∧ y.state = NodeState.recovered ∧
      y.infectedAt = x.infectedAt ∧ x.infectedAt + rt ≤ tick) ∨
    (x.state = NodeState.healthy ∧ y.state = NodeState.recovered ∧
      y.infectedAt = tick ∧ rt ≤ 0))

/-- Everything one intervention can do to one slot: the state moves
along one legal edge of the state graph and every other field is
untouched. -/
abbrev OpRel (x y : SimNode) : Prop :=
  y.id = x.id ∧ y.x = x.x ∧ y.y = x.y ∧ y.vx = x.vx ∧ y.vy = x.vy ∧
  y.connections = x.connections ∧ y.infectedAt = x.infectedAt ∧
  StepOK x.state y.state

/-- Adjacency symmetry: j is in i's connection list exactly when i is in
j's. -/
abbrev Symm (nodes : List SimNode) : Prop :=
  ∀ (i j : ℕ) (a b : SimNode), nodes[i]? = some a → nodes[j]? = some b →
    (j ∈ a.connections ↔ i ∈ b.connections)

/-- The two arrays carry the same connection list in every slot. -/
abbrev ConnEq (a b : List SimNode) : Prop :=
  Pointwise (fun x y => y.connections = x.connections) a b

/-- Nonempty connection list at one slot. -/
abbrev ConnNE (nodes : List SimNode) (p : ℕ) : Prop :=
  ∀ x, nodes[p]? = some x → x.connections ≠ []

/-- The epidemic-relevant fields (everything except position and
velocity) agree. -/
abbrev CoreEq (x y : SimNode) : Prop :=
  y.id = x.id ∧ y.state = x.state ∧ y.infectedAt = x.infectedAt ∧
    y.connections = x.connections

/-- Concrete inputs used by the witnesses below. -/
def wCfg : SimConfig :=
  { nodeCount := 2, connectionDensity := 3, spreadProbability := 15/100,
    recoveryTime := 30, initialInfected := 1 }

def wInfected : SimNode :=
  { id := 0, x := 0, y := 0, vx := 0, vy := 0, state := NodeState.infected,
    infectedAt := 0, connections := [1, 2] }

def wHealthy : SimNode :=
  { id := 1, x := 1, y := 0, vx := 0, vy := 0, state := NodeState.healthy,
    infectedAt := -1, connections := [0] }

def wRecovered : SimNode :=
  { id := 2, x := 2, y := 0, vx := 0, vy := 0, state := NodeState.recovered,
    infectedAt := 0, connections := [0] }

def wNodes : List SimNode := [wInfected, wHealthy, wRecovered]

def wSolo : SimNode :=
  { id := 0, x := 0, y := 0, vx := 0, vy := 0, state := NodeState.healthy,
    infectedAt := -1, connections := [] }

def wPosX : ℕ → ℚ := fun i => (i : ℚ) / 2

def wZero : ℕ → ℚ := fun _ => 0

def wAcc : ℕ → ℕ → Bool := fun _ _ => true

def wDrawsT : ℕ → ℕ → Bool := fun _ _ => true

def wCoinT : ℕ → Bool := fun _ => true

/-- What generateNetwork produces from wCfg on the injected randomness
used in the witnesses (checked by kernel evaluation below). -/
def wGenNodes : List SimNode :=
  [{ id := 0, x := 60, y := 60, vx := 0, vy := 0, state := NodeState.healthy,
     infectedAt := -1, connections := [1] },
   { id := 1, x := 100, y := 60, vx := 0, vy := 0,
     state := NodeState.infected, infectedAt := 0, connections := [0] }]

def wGenEdges : List SimEdge := [{ source := 0, target := 1 }]

/-- A malformed config: more seed nodes than nodes (used against the
seeding crash). -/
def cxCfgSeed : SimConfig :=
  { nodeCount := 1, connectionDensity := 3, spreadProbability := 15/100,
    recoveryTime := 30, initialInfected := 2 }

/-- A one-node config (used against the minimum-degree claim). -/
def cxCfgOne : SimConfig :=
  { nodeCount := 1, connectionDensity := 3, spreadProbability := 15/100,
    recoveryTime := 30, initialInfected := 0 }

/-- One tick of wNodes at tick 1 with all spread draws true. -/
def wTickOut : List SimNode :=
  [wInfected, { wHealthy with state := NodeState.infected, infectedAt := 1 },
   wRecovered]

/-- applyFactCheck on wNodes at target 0 with all coins true. -/
def wFCOut : List SimNode :=
  [{ wInfected with state := NodeState.recovered },
   { wHealthy with state := NodeState.aware }, wRecovered]

/-- applyForces on the single node wSolo in a 200 by 200 rectangle. -/
def wForcesOut : List SimNode :=
  [{ wSolo with x := 40, y := 40, vx := 1/5, vy := 1/5 }]

/-! Basic lemmas about the update helpers. -/

theorem length_modifyIdx {α : Type} (l : List α) (i : ℕ) (f : α → α) :
    (modifyIdx l i f).length = l.length := by
  unfold modifyIdx
  cases l[i]? with
  | none => rfl
  | some a => simp

theorem getElem?_modifyIdx_self {α : Type} {l : List α} {i : ℕ} {f : α → α}
    {x : α} (h : l[i]? = some x) : (modifyIdx l i f)[i]? = some (f x) := by
  obtain ⟨hi, _⟩ := List.getElem?_eq_some.mp h
  unfold modifyIdx
  rw [h]
  exact List.getElem?_set_self hi

theorem getElem?_modifyIdx_ne {α : Type} {l : List α} {i j : ℕ} {f : α → α}
    (h : i ≠ j) : (modifyIdx l i f)[j]? = l[j]? := by
  unfold modifyIdx
  cases l[i]? with
  | none => rfl
  | some a => exact List.getElem?_set_ne h

theorem foldlM_option_inv {α β : Type} {P : β → Prop} {f : β → α → Option β} :
    ∀ {l : List α} {b res : β},
      (∀ b1 a b2, a ∈ l → P b1 → f b1 a = some b2 → P b2) →
      l.foldlM f b = some res → P b → P res := by
  intro l
  induction l with
  | nil =>
    intro b res _ hfold hb
    simp only [List.foldlM_nil, pure, Option.some.injEq] at hfold
    exact hfold ▸ hb
  | cons a t ih =>
    intro b res hstep hfold hb
    rw [List.foldlM_cons] at hfold
    cases hf : f b a with
    | none => rw [hf] at hfold; simp at hfold
    | some b1 =>
      rw [hf] at hfold
      simp only [Option.bind_eq_bind, Option.some_bind] at hfold
      exact ih (fun x y z hy => hstep x y z (List.mem_cons_of_mem _ hy)) hfold
        (hstep b a b1 (List.mem_cons_self a t) hb hf)

/-! Basic lemmas about Pointwise. -/

theorem pointwise_refl {R : SimNode → SimNode → Prop} (h : ∀ x, R x x)
    (a : List SimNode) : Pointwise R a a :=
  ⟨by rfl, fun _ x y hx hy => by rw [hx] at hy; cases hy; exact h x⟩

theorem Pointwise.update {R : SimNode → SimNode → Prop} {a b : List SimNode}
    {i : ℕ} {y yn : SimNode} (hpw : Pointwise R a b) (hb : b[i]? = some y)
    (hR : ∀ x, a[i]? = some x → R x yn) : Pointwise R a (b.set i yn) := by
  obtain ⟨hi, _⟩ := List.getElem?_eq_some.mp hb
  refine ⟨by simp [hpw.1], fun j x z hx hz => ?_⟩
  rcases eq_or_ne i j with h | h
  · subst h
    rw [List.getElem?_set_self hi] at hz
    cases hz
    exact hR x hx
  · rw [List.getElem?_set_ne h] at hz
    exact hpw.2 j x z hx hz

theorem Pointwise.right_some {R : SimNode → SimNode → Prop}
    {a b : List SimNode} {i : ℕ} {x : SimNode} (h : Pointwise R a b)
    (hx : a[i]? = some x) : ∃ y, b[i]? = some y ∧ R x y := by
  obtain ⟨hi, _⟩ := List.getElem?_eq_some.mp hx
  have hib : i < b.length := h.1 ▸ hi
  refine ⟨b[i], by simp [List.getElem?_eq_some, hib], ?_⟩
  exact h.2 i x b[i] hx (by simp [List.getElem?_eq_some, hib])

/-! The statistics aggregator. -/

theorem getStats_sum (nodes : List SimNode) (tick : ℤ) :
    (getStats nodes tick).healthy + (getStats nodes tick).infected +
      (getStats nodes tick).recovered + (getStats nodes tick).aware =
      nodes.length := by
  simp only [getStats]
  induction nodes with
  | nil => rfl
  | cons n t ih =>
    cases h : n.state <;> simp [List.filter_cons, h] <;> omega

/-! The per-tick invariant: everything simulationTick can do to a slot. -/

theorem tickRel_refl (rt tick : ℤ) (x : SimNode) : TickRel rt tick x x :=
  ⟨by rfl, by rfl, by rfl, by rfl, by rfl, by rfl, Or.inl ⟨by rfl, by rfl⟩⟩

theorem spreadStep_inv {nodes : List SimNode} {rt tick : ℤ} {draw : Bool}
    {ns ns1 : List SimNode} {nbId : ℕ}
    (hpw : Pointwise (TickRel rt tick) nodes ns)
    (h : spreadStep tick draw ns nbId = some ns1) :
    Pointwise (TickRel rt tick) nodes ns1 := by
  unfold spreadStep at h
  split at h
  · exact absurd h (by simp)
  · rename_i nb hnb
    split at h
    · rename_i hst
      split at h
      · cases h
        refine hpw.update hnb (fun x hx => ?_)
        obtain ⟨h1, h2, h3, h4, h5, h6, hcase⟩ := hpw.2 nbId x nb hx hnb
        rcases hcase with ⟨hs, ha⟩ | ⟨hs, hs2, _⟩ | ⟨_, hs2, _, _⟩ |
          ⟨_, hs2, _, _⟩
        · exact ⟨h1, h2, h3, h4, h5, h6,
            Or.inr (Or.inl ⟨by rw [← hs, hst], by rfl, by rfl⟩)⟩
        · exact absurd (hst ▸ hs2) (by simp)
        · exact absurd (hst ▸ hs2) (by simp)
        · exact absurd (hst ▸ hs2) (by simp)
      · cases h; exact hpw
    · cases h; exact hpw

theorem spreadStep_keeps_slot {tick : ℤ} {draw : Bool} {ns ns1 : List SimNode}
    {nbId i : ℕ} {nd : SimNode} (hnd : ns[i]? = some nd)
    (hst : nd.state ≠ NodeState.healthy)
    (h : spreadStep tick draw ns nbId = some ns1) : ns1[i]? = some nd := by
  unfold spreadStep at h
  split at h
  · exact absurd h (by simp)
  · rename_i nb hnb
    split at h
    · rename_i hh
      split at h
      · cases h
        rcases eq_or_ne nbId i with he | he
        · subst he
          rw [hnd] at hnb
          cases hnb
          exact absurd hh hst
        · rw [List.getElem?_set_ne he]; exact hnd
      · cases h; exact hnd
    · cases h; exact hnd

theorem processNode_inv {nodes : List SimNode} {cfg : SimConfig} {tick : ℤ}
    {draws : ℕ → Bool} {ns ns1 : List SimNode} {i : ℕ}
    (hpw : Pointwise (TickRel cfg.recoveryTime tick) nodes ns)
    (h : processNode cfg tick draws ns i = some ns1) :
    Pointwise (TickRel cfg.recoveryTime tick) nodes ns1 := by
  unfold processNode at h
  split at h
  · cases h; exact hpw
  · rename_i nd hi
    split at h
    · rename_i hst
      split at h
      · exact absurd h (by simp)
      · rename_i m hfold
        have hkeep : Pointwise (TickRel cfg.recoveryTime tick) nodes m ∧
            m[i]? = some nd := by
          refine foldlM_option_inv
            (P := fun acc => Pointwise (TickRel cfg.recoveryTime tick) nodes acc ∧
              acc[i]? = some nd) ?_ hfold ⟨hpw, hi⟩
          intro acc kv acc1 _ hacc hstep
          exact ⟨spreadStep_inv hacc.1 hstep,
            spreadStep_keeps_slot hacc.2 (by rw [hst]; simp) hstep⟩
        split at h
        · cases h; exact hkeep.1
        · rename_i nd1 hm
          rw [hkeep.2] at hm
          cases hm
          split at h
          · rename_i hrec
            cases h
            refine hkeep.1.update hkeep.2 (fun x hx => ?_)
            obtain ⟨h1, h2, h3, h4, h5, h6, hcase⟩ :=
              hkeep.1.2 i x nd hx hkeep.2
            rcases hcase with ⟨hs, ha⟩ | ⟨hs, hs2, ha⟩ | ⟨hs, hs2, _, _⟩ |
              ⟨hs, hs2, _, _⟩
            · refine ⟨h1, h2, h3, h4, h5, h6, Or.inr (Or.inr (Or.inl
                ⟨by rw [← hs, hst], by rfl, ha, ?_⟩))⟩
              rw [← ha]
              omega
            · refine ⟨h1, h2, h3, h4, h5, h6, Or.inr (Or.inr (Or.inr
                ⟨hs, by rfl, ha, ?_⟩))⟩
              rw [ha] at hrec
              omega
            · exact absurd (hst ▸ hs2) (by simp)
            · exact absurd (hst ▸ hs2) (by simp)
          · cases h; exact hkeep.1
    · cases h; exact hpw

theorem simulationTick_pointwise {nodes : List SimNode} {cfg : SimConfig}
    {tick : ℤ} {draws : ℕ → ℕ → Bool} {out : List SimNode}
    (h : simulationTick nodes cfg tick draws = some out) :
    Pointwise (TickRel cfg.recoveryTime tick) nodes out := by
  unfold simulationTick at h
  exact foldlM_option_inv (fun ns i ns1 _ hp hstep => processNode_inv hp hstep)
    h (pointwise_refl (tickRel_refl cfg.recoveryTime tick) nodes)

/-! The intervention operators: slot-by-slot invariants. -/

theorem opRel_refl (x : SimNode) : OpRel x x :=
  ⟨by rfl, by rfl, by rfl, by rfl, by rfl, by rfl, by rfl, Or.inl (by rfl)⟩

theorem StepOK.to_healthy {s : NodeState} (h : StepOK s NodeState.healthy) :
    s = NodeState.healthy := by
  rcases h with h | ⟨_, h⟩ | ⟨_, h⟩ | ⟨_, h⟩ <;> simp_all

theorem awareStep_inv {nodes ns ns1 : List SimNode} {nbId : ℕ} {draw : Bool}
    (hpw : Pointwise OpRel nodes ns) (h : awareStep draw ns nbId = some ns1) :
    Pointwise OpRel nodes ns1 := by
  unfold awareStep at h
  split at h
  · exact absurd h (by simp)
  · rename_i nb hnb
    split at h
    · rename_i hst
      split at h
      · cases h
        refine hpw.update hnb (fun x hx => ?_)
        obtain ⟨h1, h2, h3, h4, h5, h6, h7, hstep⟩ := hpw.2 nbId x nb hx hnb
        have hxh : x.state = NodeState.healthy := StepOK.to_healthy (hst ▸ hstep)
        exact ⟨h1, h2, h3, h4, h5, h6, h7,
          Or.inr (Or.inr (Or.inr ⟨hxh, by rfl⟩))⟩
      · cases h; exact hpw
    · cases h; exact hpw

theorem applyFactCheck_pointwise {nodes : List SimNode} {nodeId : ℕ}
    {coin : ℕ → Bool} {out : List SimNode}
    (h : applyFactCheck nodes nodeId coin = some out) :
    Pointwise OpRel nodes out := by
  unfold applyFactCheck at h
  split at h
  · exact absurd h (by simp)
  · rename_i nd hnd
    have h1 : Pointwise OpRel nodes
        (if nd.state = NodeState.infected then
          nodes.set nodeId { nd with state := NodeState.recovered }
        else nodes) := by
      split
      · rename_i hst
        refine (pointwise_refl opRel_refl nodes).update hnd (fun x hx => ?_)
        rw [hnd] at hx
        cases hx
        exact ⟨by rfl, by rfl, by rfl, by rfl, by rfl, by rfl, by rfl,
          Or.inr (Or.inr (Or.inl ⟨hst, by rfl⟩))⟩
      · exact pointwise_refl opRel_refl nodes
    exact foldlM_option_inv (fun a kv b _ hp hs => awareStep_inv hp hs) h h1

theorem foldl_inv {α β : Type} {P : β → Prop} {f : β → α → β} :
    ∀ {l : List α} {b : β}, (∀ b1 a, a ∈ l → P b1 → P (f b1 a)) → P b →
      P (l.foldl f b) := by
  intro l
  induction l with
  | nil => intro b _ hb; exact hb
  | cons a t ih =>
    intro b hstep hb
    exact ih (fun x y hy => hstep x y (List.mem_cons_of_mem _ hy))
      (hstep b a (List.mem_cons_self a t) hb)

theorem applyAwarenessCampaign_weak {nodes : List SimNode} {shuf : List ℕ} :
    Pointwise (fun x y => y = x ∨ y = { x with state := NodeState.aware })
      nodes (applyAwarenessCampaign nodes shuf) := by
  unfold applyAwarenessCampaign
  refine foldl_inv (fun acc idx _ hacc => ?_)
    (pointwise_refl (fun x => Or.inl (by rfl)) nodes)
  unfold modifyIdx
  cases hidx : acc[idx]? with
  | none => exact hacc
  | some y =>
    refine hacc.update hidx (fun x hx => ?_)
    rcases hacc.2 idx x y hx hidx with hc | hc <;> rw [hc] <;>
      exact Or.inr (by rfl)

/-! Closed-form description of the fact-check neighbour walk. -/

theorem awareStep_eq (draw : Bool) {base : List SimNode} {j : ℕ} {nb : SimNode}
    (hnb : base[j]? = some nb) :
    awareStep draw base j =
      some (if nb.state = NodeState.healthy ∧ draw = true then
        base.set j { nb with state := NodeState.aware } else base) := by
  unfold awareStep
  rw [hnb]
  by_cases h1 : nb.state = NodeState.healthy
  · cases draw <;> simp [h1]
  · simp [h1]

theorem awareFold_spec (coin : ℕ → Bool) :
    ∀ (cs : List (ℕ × ℕ)) (base : List SimNode),
      (cs.map Prod.snd).Nodup → (∀ p ∈ cs, p.2 < base.length) →
      ∃ out,
        cs.foldlM (fun acc kv => awareStep (coin kv.1) acc kv.2) base =
          some out ∧
        out.length = base.length ∧
        (∀ k j, (k, j) ∈ cs → ∀ x, base[j]? = some x →
          out[j]? = some (if x.state = NodeState.healthy ∧ coin k = true then
            { x with state := NodeState.aware } else x)) ∧
        (∀ j : ℕ, (∀ k, (k, j) ∉ cs) → out[j]? = base[j]?) := by
  intro cs
  induction cs with
  | nil =>
    intro base _ _
    refine ⟨base, by simp [List.foldlM_nil, pure], by rfl, by simp,
      fun j _ => by rfl⟩
  | cons p t ih =>
    obtain ⟨k, j⟩ := p
    intro base hnd hrange
    have hj : j < base.length := hrange (k, j) (List.mem_cons_self _ _)
    obtain ⟨nb, hnb⟩ : ∃ nb, base[j]? = some nb :=
      ⟨base[j], by simp [List.getElem?_eq_some, hj]⟩
    have hstep := awareStep_eq (coin k) hnb
    have hndt : (t.map Prod.snd).Nodup := by
      simp only [List.map_cons, List.nodup_cons] at hnd
      exact hnd.2
    have hjt : j ∉ t.map Prod.snd := by
      simp only [List.map_cons, List.nodup_cons] at hnd
      exact hnd.1
    have hlen1 : (if nb.state = NodeState.healthy ∧ coin k = true then
        base.set j { nb with state := NodeState.aware } else base).length =
        base.length := by
      split <;> simp
    have hself : (if nb.state = NodeState.healthy ∧ coin k = true then
        base.set j { nb with state := NodeState.aware } else base)[j]? =
        some (if nb.state = NodeState.healthy ∧ coin k = true then
          { nb with state := NodeState.aware } else nb) := by
      split
      · exact List.getElem?_set_self hj
      · exact hnb
    have hother : ∀ j1, j1 ≠ j →
        (if nb.state = NodeState.healthy ∧ coin k = true then
          base.set j { nb with state := NodeState.aware } else base)[j1]? =
        base[j1]? := by
      intro j1 hne
      split
      · exact List.getElem?_set_ne (Ne.symm hne)
      · rfl
    obtain ⟨out, hfold, hlen, hmem, hout⟩ :=
      ih (if nb.state = NodeState.healthy ∧ coin k = true then
        base.set j { nb with state := NodeState.aware } else base)
        hndt (fun p hp => hlen1 ▸ hrange p (List.mem_cons_of_mem _ hp))
    refine ⟨out, ?_, hlen.trans hlen1, ?_, ?_⟩
    · rw [List.foldlM_cons, hstep]
      simpa using hfold
    · intro k1 j1 hmem1 x hx
      rcases List.mem_cons.mp hmem1 with he | ht
      · cases he
        rw [hnb] at hx
        cases hx
        have : ∀ k2, (k2, j) ∉ t := fun k2 hk2 =>
          hjt (List.mem_map.mpr ⟨(k2, j), hk2, rfl⟩)
        rw [hout j this, hself]
      · have hne : j1 ≠ j := fun he1 =>
          hjt (he1 ▸ List.mem_map.mpr ⟨(k1, j1), ht, rfl⟩)
        exact hmem k1 j1 ht x (by rw [hother j1 hne]; exact hx)
    · intro j1 hno
      have hne : j1 ≠ j := by
        intro he1
        exact hno k (by rw [he1]; exact List.mem_cons_self _ _)
      rw [hout j1 (fun k2 hk2 => hno k2 (List.mem_cons_of_mem _ hk2)),
        hother j1 hne]

/-- Full characterisation of applyFactCheck on a well-formed target: the
target recovers exactly when it was infected, each healthy neighbour
turns aware exactly when its coin came up true, and every other slot is
untouched. -/
theorem applyFactCheck_spec {nodes : List SimNode} {targetId : ℕ}
    {coin : ℕ → Bool} {target : SimNode}
    (htgt : nodes[targetId]? = some target)
    (hself : targetId ∉ target.connections)
    (hnd : target.connections.Nodup)
    (hrange : ∀ j ∈ target.connections, j < nodes.length) :
    ∃ out, applyFactCheck nodes targetId coin = some out ∧
      out.length = nodes.length ∧
      out[targetId]? = some { target with state :=
        if target.state = NodeState.infected then NodeState.recovered
        else target.state } ∧
      (∀ k j, target.connections[k]? = some j → ∀ x, nodes[j]? = some x →
        out[j]? = some (if x.state = NodeState.healthy ∧ coin k = true then
          { x with state := NodeState.aware } else x)) ∧
      (∀ j, j ∉ target.connections → j ≠ targetId → out[j]? = nodes[j]?) := by
  have hti : targetId < nodes.length := (List.getElem?_eq_some.mp htgt).1
  have hbase : ∀ j, j ≠ targetId →
      (if target.state = NodeState.infected then
        nodes.set targetId { target with state := NodeState.recovered }
      else nodes)[j]? = nodes[j]? := by
    intro j hne
    split
    · exact List.getElem?_set_ne (Ne.symm hne)
    · rfl
  have hbaset : (if target.state = NodeState.infected then
      nodes.set targetId { target with state := NodeState.recovered }
    else nodes)[targetId]? = some { target with state :=
      if target.state = NodeState.infected then NodeState.recovered
      else target.state } := by
    by_cases hst : target.state = NodeState.infected
    · rw [if_pos hst, if_pos hst]
      exact List.getElem?_set_self hti
    · rw [if_neg hst, if_neg hst, htgt]
  have hbaselen : (if target.state = NodeState.infected then
      nodes.set targetId { target with state := NodeState.recovered }
    else nodes).length = nodes.length := by
    split <;> simp
  obtain ⟨out, hfold, hlen, hmem, hout⟩ := awareFold_spec coin
    target.connections.enum
    (if target.state = NodeState.infected then
      nodes.set targetId { target with state := NodeState.recovered }
    else nodes)
    (by rw [List.enum_map_snd]; exact hnd)
    (by
      intro p hp
      rw [hbaselen]
      exact hrange p.2 (by
        have := List.mem_enum_iff_getElem?.mp hp
        exact List.mem_iff_getElem?.mpr ⟨p.1, this⟩))
  have hfc : applyFactCheck nodes targetId coin = some out := by
    unfold applyFactCheck
    rw [htgt]
    exact hfold
  refine ⟨out, hfc, hlen.trans hbaselen, ?_, ?_, ?_⟩
  · rw [hout targetId (fun k2 hk2 => hself (by
      have := List.mem_enum_iff_getElem?.mp hk2
      exact List.mem_iff_getElem?.mpr ⟨k2, this⟩)), hbaset]
  · intro k j hkj x hx
    have hjne : j ≠ targetId := by
      intro he
      exact hself (he ▸ List.mem_iff_getElem?.mpr ⟨k, hkj⟩)
    exact hmem k j (List.mem_enum_iff_getElem?.mpr hkj) x
      (by rw [hbase j hjne]; exact hx)
  · intro j hjc hjt
    rw [hout j (fun k2 hk2 => hjc (by
      have := List.mem_enum_iff_getElem?.mp hk2
      exact List.mem_iff_getElem?.mpr ⟨k2, this⟩)), hbase j hjt]

/-! Closed-form description of the awareness campaign. -/

theorem mem_healthyIdx {nodes : List SimNode} {idx : ℕ} :
    idx ∈ healthyIdx nodes ↔
      ∃ x, nodes[idx]? = some x ∧ x.state = NodeState.healthy := by
  unfold healthyIdx
  constructor
  · intro h
    obtain ⟨⟨i, x⟩, hmem, he⟩ := List.mem_map.mp h
    cases he
    have hfil := List.mem_filter.mp hmem
    refine ⟨x, List.mem_enum_iff_getElem?.mp hfil.1, ?_⟩
    have := hfil.2
    simpa using this
  · rintro ⟨x, hx, hstate⟩
    exact List.mem_map.mpr ⟨(idx, x),
      List.mem_filter.mpr ⟨List.mem_enum_iff_getElem?.mpr hx, by simpa using hstate⟩,
      rfl⟩

theorem healthyIdx_nodup (nodes : List SimNode) : (healthyIdx nodes).Nodup := by
  unfold healthyIdx
  exact List.Nodup.sublist
    (List.Sublist.map Prod.fst (List.filter_sublist nodes.enum))
    (List.nodup_enum_map_fst nodes)

theorem setAware_fold_spec :
    ∀ (sel : List ℕ) (base : List SimNode), sel.Nodup →
      (∀ idx ∈ sel, idx < base.length) →
      ∃ out, sel.foldl (fun acc idx => modifyIdx acc idx
          (fun nd => { nd with state := NodeState.aware })) base = out ∧
        out.length = base.length ∧
        (∀ idx ∈ sel, ∀ x, base[idx]? = some x →
          out[idx]? = some { x with state := NodeState.aware }) ∧
        (∀ idx, idx ∉ sel → out[idx]? = base[idx]?) := by
  intro sel
  induction sel with
  | nil => intro base _ _; exact ⟨base, by rfl, by rfl, by simp, fun _ _ => by rfl⟩
  | cons idx t ih =>
    intro base hnd hrange
    have hidx : idx < base.length := hrange idx (List.mem_cons_self _ _)
    obtain ⟨nb, hnb⟩ : ∃ nb, base[idx]? = some nb :=
      ⟨base[idx], by simp [List.getElem?_eq_some, hidx]⟩
    have hlen1 : (modifyIdx base idx
        (fun nd => { nd with state := NodeState.aware })).length = base.length :=
      length_modifyIdx base idx _
    obtain ⟨hni, hndt⟩ := List.nodup_cons.mp hnd
    obtain ⟨out, hfold, hlen, hmem, hout⟩ := ih
      (modifyIdx base idx (fun nd => { nd with state := NodeState.aware }))
      hndt (fun j hj => hlen1 ▸ hrange j (List.mem_cons_of_mem _ hj))
    refine ⟨out, by simpa using hfold, hlen.trans hlen1, ?_, ?_⟩
    · intro j hj x hx
      rcases List.mem_cons.mp hj with he | ht
      · cases he
        rw [hnb] at hx
        cases hx
        rw [hout idx hni, getElem?_modifyIdx_self hnb]
      · have hne : idx ≠ j := fun he1 => hni (he1 ▸ ht)
        exact hmem j ht x (by rw [getElem?_modifyIdx_ne hne]; exact hx)
    · intro j hj
      have hne : idx ≠ j := fun he1 =>
        hj (he1 ▸ List.mem_cons_self _ _)
      rw [hout j (fun hjt => hj (List.mem_cons_of_mem _ hjt)),
        getElem?_modifyIdx_ne hne]

/-- Full characterisation of applyAwarenessCampaign when the injected
shuffle is a permutation of the healthy index set (which the code
guarantees): exactly ceil(h/5) distinct healthy slots, the shuffled
prefix, turn aware, and every other slot is untouched. -/
theorem applyAwarenessCampaign_spec (nodes : List SimNode) (shuf : List ℕ)
    (hperm : shuf.Perm (healthyIdx nodes)) :
    (applyAwarenessCampaign nodes shuf).length = nodes.length ∧
    (shuf.take (((healthyIdx nodes).length + 4) / 5)).Nodup ∧
    (shuf.take (((healthyIdx nodes).length + 4) / 5)).length =
      ((healthyIdx nodes).length + 4) / 5 ∧
    (∀ idx ∈ shuf.take (((healthyIdx nodes).length + 4) / 5),
      ∃ x, nodes[idx]? = some x ∧ x.state = NodeState.healthy ∧
        (applyAwarenessCampaign nodes shuf)[idx]? =
          some { x with state := NodeState.aware }) ∧
    (∀ idx, idx ∉ shuf.take (((healthyIdx nodes).length + 4) / 5) →
      (applyAwarenessCampaign nodes shuf)[idx]? = nodes[idx]?) := by
  have hlensh : shuf.length = (healthyIdx nodes).length := hperm.length_eq
  have hcle : ((healthyIdx nodes).length + 4) / 5 ≤ shuf.length := by
    rw [hlensh]; omega
  have hmin : min (((healthyIdx nodes).length + 4) / 5) shuf.length =
      ((healthyIdx nodes).length + 4) / 5 := Nat.min_eq_left hcle
  have htake : ∀ idx ∈ shuf.take (((healthyIdx nodes).length + 4) / 5),
      idx ∈ healthyIdx nodes := fun idx hidx =>
    hperm.mem_iff.mp ((List.take_sublist _ _).subset hidx)
  have hndsel : (shuf.take (((healthyIdx nodes).length + 4) / 5)).Nodup :=
    List.Nodup.sublist (List.take_sublist _ _)
      (hperm.symm.nodup (healthyIdx_nodup nodes))
  obtain ⟨out, hfold, hlen, hmem, hout⟩ := setAware_fold_spec
    (shuf.take (((healthyIdx nodes).length + 4) / 5)) nodes hndsel
    (fun idx hidx => by
      obtain ⟨x, hx, _⟩ := mem_healthyIdx.mp (htake idx hidx)
      exact (List.getElem?_eq_some.mp hx).1)
  have hcamp : applyAwarenessCampaign nodes shuf = out := by
    unfold applyAwarenessCampaign
    rw [hmin]
    exact hfold
  refine ⟨hcamp ▸ hlen, hndsel, ?_, ?_, ?_⟩
  · rw [List.length_take, hlensh]
    omega
  · intro idx hidx
    obtain ⟨x, hx, hstate⟩ := mem_healthyIdx.mp (htake idx hidx)
    exact ⟨x, hx, hstate, by rw [hcamp]; exact hmem idx hidx x hx⟩
  · intro idx hidx
    rw [hcamp]
    exact hout idx hidx

/-! Generation: lengths, candidate lists, minimum degree. -/

theorem length_pushConn (nodes : List SimNode) (i j : ℕ) :
    (pushConn nodes i j).length = nodes.length :=
  length_modifyIdx nodes i _

theorem edgeLoop_length (i tc : ℕ) (accept : ℕ → Bool) :
    ∀ (cs : List (ℕ × ℕ)) (nodes : List SimNode) (edges : List SimEdge)
      (added : ℕ),
      (edgeLoop i tc accept cs nodes edges added).1.length = nodes.length := by
  intro cs
  induction cs with
  | nil => intro nodes edges added; rfl
  | cons p t ih =>
    intro nodes edges added
    obtain ⟨k, j⟩ := p
    unfold edgeLoop
    split
    · rfl
    · split
      · exact ih nodes edges added
      · split
        · rw [ih _ _ _, length_pushConn, length_pushConn]
        · exact ih nodes edges added

theorem edgePass_length (d r : ℚ) (accept : ℕ → Bool) (i : ℕ)
    (st : List SimNode × List SimEdge) :
    (edgePass d r accept i st).1.length = st.1.length :=
  edgeLoop_length i _ accept _ st.1 st.2 0

theorem genState_length (cfg : SimConfig) (width height : ℚ)
    (posX posY degDraw : ℕ → ℚ) (accept : ℕ → ℕ → Bool) :
    (genState cfg width height posX posY degDraw accept).1.length =
      cfg.nodeCount := by
  unfold genState
  have : ∀ (l : List ℕ) (st : List SimNode × List SimEdge),
      (l.foldl (fun st i =>
        edgePass cfg.connectionDensity (degDraw i) (accept i) i st) st).1.length =
      st.1.length := by
    intro l
    induction l with
    | nil => intro st; rfl
    | cons a t ih => intro st; rw [List.foldl_cons, ih, edgePass_length]
  rw [this]
  simp

theorem getElem?_pushConn_self {ns : List SimNode} {a b : ℕ} {x : SimNode}
    (h : ns[a]? = some x) : (pushConn ns a b)[a]? =
      some { x with connections := x.connections ++ [b] } :=
  getElem?_modifyIdx_self h

theorem getElem?_pushConn_ne {ns : List SimNode} {a b p : ℕ} (h : a ≠ p) :
    (pushConn ns a b)[p]? = ns[p]? :=
  getElem?_modifyIdx_ne h

theorem pushConn_connNE_self {ns : List SimNode} {a b : ℕ}
    (ha : a < ns.length) : ConnNE (pushConn ns a b) a := by
  intro x hx
  have hsome : ns[a]? = some ns[a] := by simp [List.getElem?_eq_some, ha]
  rw [getElem?_pushConn_self hsome] at hx
  cases hx
  simp

theorem pushConn_connNE_pres {ns : List SimNode} {a b p : ℕ}
    (h : ConnNE ns p) : ConnNE (pushConn ns a b) p := by
  intro x hx
  rcases eq_or_ne a p with he | he
  · subst he
    cases hsome : ns[a]? with
    | none =>
      unfold pushConn modifyIdx at hx
      rw [hsome] at hx
      exact absurd hx (by simp [hsome])
    | some nd =>
      rw [getElem?_pushConn_self hsome] at hx
      cases hx
      simp
  · rw [getElem?_pushConn_ne he] at hx
    exact h x hx

theorem edgeLoop_connNE (i tc : ℕ) (accept : ℕ → Bool) (p : ℕ) :
    ∀ (cs : List (ℕ × ℕ)) (nodes : List SimNode) (edges : List SimEdge)
      (added : ℕ), ConnNE nodes p →
      ConnNE (edgeLoop i tc accept cs nodes edges added).1 p := by
  intro cs
  induction cs with
  | nil => intro nodes edges added h; exact h
  | cons q t ih =>
    intro nodes edges added h
    obtain ⟨k, j⟩ := q
    unfold edgeLoop
    split
    · exact h
    · split
      · exact ih nodes edges added h
      · split
        · exact ih _ _ _ (pushConn_connNE_pres (pushConn_connNE_pres h))
        · exact ih nodes edges added h

theorem hasConn_true_iff {nodes : List SimNode} {i j : ℕ} :
    hasConn nodes i j = true ↔
      ∃ x, nodes[i]? = some x ∧ j ∈ x.connections := by
  unfold hasConn
  split
  · rename_i nd heq
    simp [heq]
  · rename_i heq
    simp [heq]

theorem targetConns_pos (d r : ℚ) : 1 ≤ targetConns d r := by
  unfold targetConns
  have h1 : (1:ℤ) ≤ max 1 ⌊d + (r - 1/2) * 2⌋ := le_max_left 1 _
  omega

theorem edgeLoop_estab {i tc : ℕ} {accept : ℕ → Bool} (htc : 1 ≤ tc)
    {k j : ℕ} {cs : List (ℕ × ℕ)} {nodes : List SimNode}
    {edges : List SimEdge} (hi : i < nodes.length) :
    ConnNE (edgeLoop i tc accept ((k, j) :: cs) nodes edges 0).1 i := by
  unfold edgeLoop
  rw [if_neg (by omega)]
  split
  · rename_i hconn
    refine edgeLoop_connNE i tc accept i cs nodes edges 0 (fun x hx => ?_)
    obtain ⟨x1, hx1, hmem⟩ := hasConn_true_iff.mp hconn
    rw [hx1] at hx
    cases hx
    exact List.ne_nil_of_mem hmem
  · rw [if_pos (by simp)]
    refine edgeLoop_connNE i tc accept i cs _ _ 1 ?_
    rcases eq_or_ne j i with he | he
    · subst he
      exact pushConn_connNE_self (by rw [length_pushConn]; exact hi)
    · exact pushConn_connNE_pres (pushConn_connNE_self hi)

theorem candList_perm (nodes : List SimNode) (i : ℕ) :
    (candList nodes i).Perm
      ((List.range nodes.length).filter (fun j => j ≠ i)) :=
  List.perm_insertionSort _ _

theorem candList_mem {nodes : List SimNode} {i j : ℕ} :
    j ∈ candList nodes i ↔ j < nodes.length ∧ j ≠ i := by
  rw [(candList_perm nodes i).mem_iff, List.mem_filter, List.mem_range]
  simp

theorem candList_ne_nil {nodes : List SimNode} {i : ℕ}
    (h2 : 2 ≤ nodes.length) : candList nodes i ≠ [] := by
  rcases eq_or_ne i 0 with he | he
  · subst he
    exact List.ne_nil_of_mem
      ((candList_mem (j := 1)).mpr ⟨by omega, by omega⟩)
  · exact List.ne_nil_of_mem
      ((candList_mem (j := 0)).mpr ⟨by omega, Ne.symm he⟩)

theorem edgePass_estab {d r : ℚ} {accept : ℕ → Bool} {i : ℕ}
    {st : List SimNode × List SimEdge} (h2 : 2 ≤ st.1.length)
    (hi : i < st.1.length) : ConnNE (edgePass d r accept i st).1 i := by
  unfold edgePass
  cases hc : (candList st.1 i).enum with
  | nil =>
    exact absurd (by simpa using hc) (candList_ne_nil h2)
  | cons q t =>
    obtain ⟨k, j⟩ := q
    exact edgeLoop_estab (targetConns_pos d r) hi

theorem edgePass_connNE_pres {d r : ℚ} {accept : ℕ → Bool} {i p : ℕ}
    {st : List SimNode × List SimEdge} (h : ConnNE st.1 p) :
    ConnNE (edgePass d r accept i st).1 p :=
  edgeLoop_connNE i _ accept p _ st.1 st.2 0 h

theorem genFold_connNE (d : ℚ) (dD : ℕ → ℚ) (acc : ℕ → ℕ → Bool) :
    ∀ (l : List ℕ) (st : List SimNode × List SimEdge),
      2 ≤ st.1.length → (∀ i ∈ l, i < st.1.length) → ∀ p ∈ l,
      ConnNE ((l.foldl (fun st i =>
        edgePass d (dD i) (acc i) i st) st)).1 p := by
  intro l
  induction l with
  | nil => intro st _ _ p hp; cases hp
  | cons a t ih =>
    intro st h2 hrange p hp
    rw [List.foldl_cons]
    have hlen : (edgePass d (dD a) (acc a) a st).1.length = st.1.length :=
      edgePass_length d (dD a) (acc a) a st
    have hpres : ∀ q, ConnNE (edgePass d (dD a) (acc a) a st).1 q →
        ConnNE ((t.foldl (fun st i => edgePass d (dD i) (acc i) i st)
          (edgePass d (dD a) (acc a) a st))).1 q := by
      intro q hq
      have : ∀ (l1 : List ℕ) (st1 : List SimNode × List SimEdge),
          ConnNE st1.1 q → ConnNE ((l1.foldl (fun st i =>
            edgePass d (dD i) (acc i) i st) st1)).1 q := by
        intro l1
        induction l1 with
        | nil => intro st1 h1; exact h1
        | cons b u ihu =>
          intro st1 h1
          rw [List.foldl_cons]
          exact ihu _ (edgePass_connNE_pres h1)
      exact this t _ hq
    rcases List.mem_cons.mp hp with he | ht
    · subst he
      exact hpres p (edgePass_estab h2 (hrange p (List.mem_cons_self _ _)))
    · exact ih (edgePass d (dD a) (acc a) a st) (by omega)
        (fun i hi => by rw [hlen]; exact hrange i (List.mem_cons_of_mem _ hi))
        p ht

theorem seedInfected_pointwise {nodes : List SimNode} {shuffled : List ℕ}
    {cnt : ℕ} {out : List SimNode}
    (h : seedInfected nodes shuffled cnt = some out) :
    Pointwise (fun x y => y = x ∨
      y = { x with state := NodeState.infected, infectedAt := 0 }) nodes out := by
  unfold seedInfected at h
  refine foldlM_option_inv (fun ns i ns1 _ hp hstep => ?_) h
    (pointwise_refl (fun x => Or.inl (by rfl)) nodes)
  cases hsh : shuffled[i]? with
  | none => simp [hsh] at hstep
  | some idx =>
    cases hnd : ns[idx]? with
    | none => simp [hsh, hnd] at hstep
    | some nd =>
      simp only [hsh, hnd, Option.some.injEq] at hstep
      subst hstep
      refine hp.update hnd (fun x hx => ?_)
      rcases hp.2 idx x nd hx hnd with hc | hc <;> rw [hc] <;>
        exact Or.inr (by rfl)

theorem Pointwise.left_some {R : SimNode → SimNode → Prop}
    {a b : List SimNode} {i : ℕ} {y : SimNode} (h : Pointwise R a b)
    (hy : b[i]? = some y) : ∃ x, a[i]? = some x ∧ R x y := by
  obtain ⟨hi, _⟩ := List.getElem?_eq_some.mp hy
  have hia : i < a.length := h.1 ▸ hi
  refine ⟨a[i], by simp [List.getElem?_eq_some, hia], ?_⟩
  exact h.2 i a[i] y (by simp [List.getElem?_eq_some, hia]) hy

theorem generateNetwork_minDeg {cfg : SimConfig} {width height : ℚ}
    {posX posY degDraw : ℕ → ℚ} {accept : ℕ → ℕ → Bool} {shuffled : List ℕ}
    {ns : List SimNode} {es : List SimEdge} (h2 : 2 ≤ cfg.nodeCount)
    (h : generateNetwork cfg width height posX posY degDraw accept shuffled =
      some (ns, es)) : ∀ nd ∈ ns, nd.connections ≠ [] := by
  intro nd hnd
  obtain ⟨p, hp⟩ := List.mem_iff_getElem?.mp hnd
  unfold generateNetwork at h
  cases hseed : seedInfected (genState cfg width height posX posY degDraw accept).1
      shuffled cfg.initialInfected with
  | none => rw [hseed] at h; exact absurd h (by simp)
  | some ns1 =>
    rw [hseed] at h
    simp only [Option.map_some', Option.some.injEq, Prod.mk.injEq] at h
    obtain ⟨hns, _⟩ := h
    subst hns
    have hpw := seedInfected_pointwise hseed
    obtain ⟨x, hx, hc⟩ := hpw.left_some hp
    have hconn : nd.connections = x.connections := by
      rcases hc with hc | hc <;> rw [hc]
    have hinit : 2 ≤ (genState cfg width height posX posY degDraw accept).1.length := by
      rw [genState_length]; exact h2
    have hlt : p < cfg.nodeCount := by
      have := (List.getElem?_eq_some.mp hx).1
      rw [genState_length] at this
      exact this
    have := genFold_connNE cfg.connectionDensity degDraw accept
      (List.range cfg.nodeCount)
      ((List.range cfg.nodeCount).map (initNode width height posX posY), [])
      (by simpa using h2) (by intro i hi; simpa using List.mem_range.mp hi)
      p (List.mem_range.mpr hlt)
    rw [hconn]
    exact this x hx

/-! Generation: adjacency symmetry. -/

theorem Symm.push {nodes : List SimNode} {i j : ℕ} (h : Symm nodes)
    (hi : i < nodes.length) (hj : j < nodes.length) (hij : i ≠ j) :
    Symm (pushConn (pushConn nodes i j) j i) := by
  have hxi : nodes[i]? = some nodes[i] := by simp [List.getElem?_eq_some, hi]
  have hxj : nodes[j]? = some nodes[j] := by simp [List.getElem?_eq_some, hj]
  have hAi : (pushConn (pushConn nodes i j) j i)[i]? =
      some { nodes[i] with connections := nodes[i].connections ++ [j] } := by
    rw [getElem?_pushConn_ne (Ne.symm hij), getElem?_pushConn_self hxi]
  have hAj : (pushConn (pushConn nodes i j) j i)[j]? =
      some { nodes[j] with connections := nodes[j].connections ++ [i] } := by
    rw [getElem?_pushConn_self (by rw [getElem?_pushConn_ne hij]; exact hxj)]
  have hAo : ∀ p, p ≠ i → p ≠ j →
      (pushConn (pushConn nodes i j) j i)[p]? = nodes[p]? := by
    intro p hpi hpj
    rw [getElem?_pushConn_ne (Ne.symm hpj), getElem?_pushConn_ne (Ne.symm hpi)]
  intro p q a b hp hq
  by_cases hpi : p = i
  · subst hpi
    rw [hAi] at hp
    cases hp
    by_cases hqi : q = p
    · subst hqi
      rw [hAi] at hq
      cases hq
      exact Iff.rfl
    · by_cases hqj : q = j
      · subst hqj
        rw [hAj] at hq
        cases hq
        simp [List.mem_append]
      · rw [hAo q hqi hqj] at hq
        have hbase := h p q nodes[p] b hxi hq
        simp only [List.mem_append, List.mem_singleton, hqj, or_false]
        exact hbase
  · by_cases hpj : p = j
    · subst hpj
      rw [hAj] at hp
      cases hp
      by_cases hqi : q = i
      · subst hqi
        rw [hAi] at hq
        cases hq
        simp [List.mem_append]
      · by_cases hqj : q = p
        · subst hqj
          rw [hAj] at hq
          cases hq
          exact Iff.rfl
        · rw [hAo q hqi hqj] at hq
          have hbase := h p q nodes[p] b hxj hq
          simp only [List.mem_append, List.mem_singleton, hqi, or_false]
          exact hbase
    · rw [hAo p hpi hpj] at hp
      by_cases hqi : q = i
      · subst hqi
        rw [hAi] at hq
        cases hq
        have hbase := h p q a nodes[q] hp hxi
        simp only [List.mem_append, List.mem_singleton, hpj, or_false]
        exact hbase
      · by_cases hqj : q = j
        · subst hqj
          rw [hAj] at hq
          cases hq
          have hbase := h p q a nodes[q] hp hxj
          simp only [List.mem_append, List.mem_singleton, hpi, or_false]
          exact hbase
        · rw [hAo q hqi hqj] at hq
          exact h p q a b hp hq

theorem edgeLoop_symm (i tc : ℕ) (accept : ℕ → Bool) :
    ∀ (cs : List (ℕ × ℕ)) (nodes : List SimNode) (edges : List SimEdge)
      (added : ℕ), Symm nodes → i < nodes.length →
      (∀ q ∈ cs, q.2 < nodes.length ∧ q.2 ≠ i) →
      Symm (edgeLoop i tc accept cs nodes edges added).1 := by
  intro cs
  induction cs with
  | nil => intro nodes edges added h _ _; exact h
  | cons q t ih =>
    obtain ⟨k, j⟩ := q
    intro nodes edges added h hi hrange
    unfold edgeLoop
    split
    · exact h
    · split
      · exact ih nodes edges added h hi
          (fun q hq => hrange q (List.mem_cons_of_mem _ hq))
      · split
        · have hj := hrange (k, j) (List.mem_cons_self _ _)
          refine ih _ _ _ (h.push hi hj.1 (Ne.symm hj.2)) ?_ ?_
          · rw [length_pushConn, length_pushConn]; exact hi
          · intro q hq
            rw [length_pushConn, length_pushConn]
            exact hrange q (List.mem_cons_of_mem _ hq)
        · exact ih nodes edges added h hi
            (fun q hq => hrange q (List.mem_cons_of_mem _ hq))

theorem edgePass_symm {d r : ℚ} {accept : ℕ → Bool} {i : ℕ}
    {st : List SimNode × List SimEdge} (h : Symm st.1)
    (hi : i < st.1.length) : Symm (edgePass d r accept i st).1 := by
  unfold edgePass
  refine edgeLoop_symm i _ accept _ st.1 st.2 0 h hi ?_
  intro q hq
  have hqm : q.2 ∈ candList st.1 i := by
    have := List.mem_enum_iff_getElem?.mp hq
    exact List.mem_iff_getElem?.mpr ⟨q.1, this⟩
  exact ⟨(candList_mem.mp hqm).1, (candList_mem.mp hqm).2⟩

theorem genFold_symm (d : ℚ) (dD : ℕ → ℚ) (acc : ℕ → ℕ → Bool) :
    ∀ (l : List ℕ) (st : List SimNode × List SimEdge), Symm st.1 →
      (∀ i ∈ l, i < st.1.length) →
      Symm ((l.foldl (fun st i => edgePass d (dD i) (acc i) i st) st)).1 := by
  intro l
  induction l with
  | nil => intro st h _; exact h
  | cons a t ih =>
    intro st h hrange
    rw [List.foldl_cons]
    have hlen : (edgePass d (dD a) (acc a) a st).1.length = st.1.length :=
      edgePass_length d (dD a) (acc a) a st
    refine ih _ (edgePass_symm h (hrange a (List.mem_cons_self _ _))) ?_
    intro i hi
    rw [hlen]
    exact hrange i (List.mem_cons_of_mem _ hi)

theorem initNodes_symm (n : ℕ) (width height : ℚ) (pX pY : ℕ → ℚ) :
    Symm ((List.range n).map (initNode width height pX pY)) := by
  intro p q a b hp hq
  rw [List.getElem?_map] at hp
  cases hr : (List.range n)[p]? with
  | none => rw [hr] at hp; cases hp
  | some v =>
    rw [hr] at hp
    cases hp
    rw [List.getElem?_map] at hq
    cases hs : (List.range n)[q]? with
    | none => rw [hs] at hq; cases hq
    | some w =>
      rw [hs] at hq
      cases hq
      simp [initNode]

theorem Symm.of_connEq {a b : List SimNode} (hc : ConnEq a b) (h : Symm a) :
    Symm b := by
  intro p q x y hp hq
  obtain ⟨x0, hx0, hex⟩ := hc.left_some hp
  obtain ⟨y0, hy0, hey⟩ := hc.left_some hq
  rw [hex, hey]
  exact h p q x0 y0 hx0 hy0

theorem genState_symm (cfg : SimConfig) (width height : ℚ)
    (posX posY degDraw : ℕ → ℚ) (accept : ℕ → ℕ → Bool) :
    Symm (genState cfg width height posX posY degDraw accept).1 := by
  unfold genState
  refine genFold_symm cfg.connectionDensity degDraw accept
    (List.range cfg.nodeCount) _
    (initNodes_symm cfg.nodeCount width height posX posY) ?_
  intro i hi
  simpa using List.mem_range.mp hi

theorem seedInfected_connEq {nodes : List SimNode} {shuffled : List ℕ}
    {cnt : ℕ} {out : List SimNode}
    (h : seedInfected nodes shuffled cnt = some out) : ConnEq nodes out := by
  have hpw := seedInfected_pointwise h
  refine ⟨hpw.1, fun i x y hx hy => ?_⟩
  rcases hpw.2 i x y hx hy with hc | hc <;> rw [hc]

theorem generateNetwork_symm {cfg : SimConfig} {width height : ℚ}
    {posX posY degDraw : ℕ → ℚ} {accept : ℕ → ℕ → Bool} {shuffled : List ℕ}
    {ns : List SimNode} {es : List SimEdge}
    (h : generateNetwork cfg width height posX posY degDraw accept shuffled =
      some (ns, es)) : Symm ns := by
  unfold generateNetwork at h
  cases hseed : seedInfected
      (genState cfg width height posX posY degDraw accept).1 shuffled
      cfg.initialInfected with
  | none => rw [hseed] at h; exact absurd h (by simp)
  | some ns1 =>
    rw [hseed] at h
    simp only [Option.map_some', Option.some.injEq, Prod.mk.injEq] at h
    obtain ⟨hns, _⟩ := h
    subst hns
    exact Symm.of_connEq (seedInfected_connEq hseed)
      (genState_symm cfg width height posX posY degDraw accept)

theorem generateNetwork_length {cfg : SimConfig} {width height : ℚ}
    {posX posY degDraw : ℕ → ℚ} {accept : ℕ → ℕ → Bool} {shuffled : List ℕ}
    {ns : List SimNode} {es : List SimEdge}
    (h : generateNetwork cfg width height posX posY degDraw accept shuffled =
      some (ns, es)) : ns.length = cfg.nodeCount := by
  unfold generateNetwork at h
  cases hseed : seedInfected
      (genState cfg width height posX posY degDraw accept).1 shuffled
      cfg.initialInfected with
  | none => rw [hseed] at h; exact absurd h (by simp)
  | some ns1 =>
    rw [hseed] at h
    simp only [Option.map_some', Option.some.injEq, Prod.mk.injEq] at h
    obtain ⟨hns, _⟩ := h
    subst hns
    rw [← (seedInfected_pointwise hseed).1, genState_length]

/-! The layout engine touches only positions and velocities. -/

theorem coreEq_refl (x : SimNode) : CoreEq x x :=
  ⟨by rfl, by rfl, by rfl, by rfl⟩

theorem pointwise_comp {R : SimNode → SimNode → Prop} {a b c : List SimNode}
    (hR : ∀ x y z, R x y → R y z → R x z)
    (h1 : Pointwise R a b) (h2 : Pointwise R b c) : Pointwise R a c := by
  refine ⟨h1.1.trans h2.1, fun i x z hx hz => ?_⟩
  obtain ⟨y, hy, hxy⟩ := h1.right_some hx
  exact hR x y z hxy (h2.2 i y z hy hz)

theorem coreEq_comp {x y z : SimNode} (h1 : CoreEq x y) (h2 : CoreEq y z) :
    CoreEq x z :=
  ⟨h2.1.trans h1.1, h2.2.1.trans h1.2.1, h2.2.2.1.trans h1.2.2.1,
    h2.2.2.2.trans h1.2.2.2⟩

theorem coreComp {a b c : List SimNode} (h1 : Pointwise CoreEq a b)
    (h2 : Pointwise CoreEq b c) : Pointwise CoreEq a c :=
  pointwise_comp (fun _ _ _ u v => coreEq_comp u v) h1 h2

theorem Pointwise.modIdx {R : SimNode → SimNode → Prop} {a b : List SimNode}
    {i : ℕ} {f : SimNode → SimNode} (hpw : Pointwise R a b)
    (hf : ∀ x y, a[i]? = some x → b[i]? = some y → R x y → R x (f y)) :
    Pointwise R a (modifyIdx b i f) := by
  unfold modifyIdx
  cases hb : b[i]? with
  | none => exact hpw
  | some y =>
    exact hpw.update hb (fun x hx => hf x y hx hb (hpw.2 i x y hx hb))

theorem Pointwise.mapRel {R : SimNode → SimNode → Prop}
    {f : SimNode → SimNode} (h : ∀ x, R x (f x)) (b : List SimNode) :
    Pointwise R b (b.map f) := by
  refine ⟨by simp, fun i x y hx hy => ?_⟩
  rw [List.getElem?_map, hx] at hy
  cases hy
  exact h x

theorem repulsePair_core (hyp : ℚ → ℚ → ℚ) (ns : List SimNode) (i j : ℕ) :
    Pointwise CoreEq ns (repulsePair hyp ns i j) := by
  unfold repulsePair
  split
  · rename_i a b ha hb
    refine Pointwise.modIdx ?_
      (fun x y hx hy hxy => ⟨hxy.1, hxy.2.1, hxy.2.2.1, hxy.2.2.2⟩)
    refine (pointwise_refl coreEq_refl ns).update ha (fun x hx => ?_)
    rw [ha] at hx
    cases hx
    exact ⟨by rfl, by rfl, by rfl, by rfl⟩
  · exact pointwise_refl coreEq_refl ns

theorem attractEdge_core {hyp : ℚ → ℚ → ℚ} {ns out : List SimNode}
    {e : SimEdge} (h : attractEdge hyp ns e = some out) :
    Pointwise CoreEq ns out := by
  unfold attractEdge at h
  split at h
  · rename_i a b ha hb
    cases h
    refine Pointwise.modIdx ?_
      (fun x y hx hy hxy => ⟨hxy.1, hxy.2.1, hxy.2.2.1, hxy.2.2.2⟩)
    refine (pointwise_refl coreEq_refl ns).update ha (fun x hx => ?_)
    rw [ha] at hx
    cases hx
    exact ⟨by rfl, by rfl, by rfl, by rfl⟩
  · exact absurd h (by simp)

theorem repulseAll_core (hyp : ℚ → ℚ → ℚ) (ns : List SimNode) :
    Pointwise CoreEq ns (repulseAll hyp ns) := by
  unfold repulseAll
  refine foldl_inv (fun acc i _ hacc => ?_) (pointwise_refl coreEq_refl ns)
  refine foldl_inv (fun acc2 j _ hacc2 => ?_) hacc
  exact coreComp hacc2 (repulsePair_core hyp acc2 i j)

theorem applyForces_core {nodes : List SimNode} {edges : List SimEdge}
    {width height : ℚ} {hyp : ℚ → ℚ → ℚ} {out : List SimNode}
    (h : applyForces nodes edges width height hyp = some out) :
    Pointwise CoreEq nodes out := by
  unfold applyForces at h
  split at h
  · exact absurd h (by simp)
  · rename_i att hatt
    cases h
    have h1 : Pointwise CoreEq nodes (resetVel nodes) :=
      Pointwise.mapRel (fun x => ⟨by rfl, by rfl, by rfl, by rfl⟩) nodes
    have h2 : Pointwise CoreEq nodes (repulseAll hyp (resetVel nodes)) :=
      coreComp h1 (repulseAll_core hyp (resetVel nodes))
    have h3 : Pointwise CoreEq nodes att :=
      foldlM_option_inv
        (fun ns1 e ns2 _ hp hstep => coreComp hp (attractEdge_core hstep))
        hatt h2
    have h4 : Pointwise CoreEq att (att.map (gravityStep width height)) :=
      Pointwise.mapRel (fun x => ⟨by rfl, by rfl, by rfl, by rfl⟩) att
    have h5 : Pointwise CoreEq (att.map (gravityStep width height))
        ((att.map (gravityStep width height)).map
          (integrateStep width height)) :=
      Pointwise.mapRel (fun x => ⟨by rfl, by rfl, by rfl, by rfl⟩) _
    exact coreComp (coreComp h3 h4) h5

/-! Connection preservation for each operation, and decidable symmetry. -/

theorem simulationTick_connEq {nodes : List SimNode} {cfg : SimConfig}
    {tick : ℤ} {draws : ℕ → ℕ → Bool} {out : List SimNode}
    (h : simulationTick nodes cfg tick draws = some out) : ConnEq nodes out :=
  ⟨(simulationTick_pointwise h).1, fun i x y hx hy =>
    ((simulationTick_pointwise h).2 i x y hx hy).2.2.2.2.2.1⟩

theorem applyFactCheck_connEq {nodes : List SimNode} {nodeId : ℕ}
    {coin : ℕ → Bool} {out : List SimNode}
    (h : applyFactCheck nodes nodeId coin = some out) : ConnEq nodes out :=
  ⟨(applyFactCheck_pointwise h).1, fun i x y hx hy =>
    ((applyFactCheck_pointwise h).2 i x y hx hy).2.2.2.2.2.1⟩

theorem applyAwarenessCampaign_connEq (nodes : List SimNode) (shuf : List ℕ) :
    ConnEq nodes (applyAwarenessCampaign nodes shuf) :=
  ⟨applyAwarenessCampaign_weak.1, fun i x y hx hy => by
    rcases applyAwarenessCampaign_weak.2 i x y hx hy with hc | hc <;> rw [hc]⟩

theorem applyForces_connEq {nodes : List SimNode} {edges : List SimEdge}
    {width height : ℚ} {hyp : ℚ → ℚ → ℚ} {out : List SimNode}
    (h : applyForces nodes edges width height hyp = some out) :
    ConnEq nodes out :=
  ⟨(applyForces_core h).1, fun i x y hx hy =>
    ((applyForces_core h).2 i x y hx hy).2.2.2⟩

theorem Symm.of_get {nodes : List SimNode}
    (h : ∀ (i j : Fin nodes.length),
      ((j : ℕ) ∈ (nodes.get i).connections ↔
        (i : ℕ) ∈ (nodes.get j).connections)) : Symm nodes := by
  intro i j a b hp hq
  obtain ⟨hi, hgi⟩ := List.getElem?_eq_some.mp hp
  obtain ⟨hj, hgj⟩ := List.getElem?_eq_some.mp hq
  have hg := h ⟨i, hi⟩ ⟨j, hj⟩
  simp only [List.get_eq_getElem] at hg
  rw [hgi, hgj] at hg
  exact hg

/-! Helper projections of the tick invariant used by the claims. -/

theorem simulationTick_states {nodes : List SimNode} {cfg : SimConfig}
    {tick : ℤ} {draws : ℕ → ℕ → Bool} {out : List SimNode}
    (h : simulationTick nodes cfg tick draws = some out) :
    Pointwise (fun x y => StepOK x.state y.state ∨
      (x.state = NodeState.healthy ∧ y.state = NodeState.recovered ∧
        cfg.recoveryTime ≤ 0)) nodes out := by
  have hpw := simulationTick_pointwise h
  refine ⟨hpw.1, fun i x y hx hy => ?_⟩
  obtain ⟨_, _, _, _, _, _, hcase⟩ := hpw.2 i x y hx hy
  rcases hcase with ⟨hs, _⟩ | ⟨hs, ht, _⟩ | ⟨hs, ht, _, _⟩ | ⟨hs, ht, _, hrt⟩
  · exact Or.inl (Or.inl hs)
  · exact Or.inl (Or.inr (Or.inl ⟨hs, ht⟩))
  · exact Or.inl (Or.inr (Or.inr (Or.inl ⟨hs, ht⟩)))
  · exact Or.inr ⟨hs, ht, hrt⟩

theorem simulationTick_stepOK {nodes : List SimNode} {cfg : SimConfig}
    {tick : ℤ} {draws : ℕ → ℕ → Bool} {out : List SimNode}
    (hrt : 1 ≤ cfg.recoveryTime)
    (h : simulationTick nodes cfg tick draws = some out) :
    Pointwise (fun x y => StepOK x.state y.state) nodes out := by
  have hpw := simulationTick_states h
  refine ⟨hpw.1, fun i x y hx hy => ?_⟩
  rcases hpw.2 i x y hx hy with hc | ⟨_, _, hc⟩
  · exact hc
  · omega

theorem applyFactCheck_stepOK {nodes : List SimNode} {nodeId : ℕ}
    {coin : ℕ → Bool} {out : List SimNode}
    (h : applyFactCheck nodes nodeId coin = some out) :
    Pointwise (fun x y => StepOK x.state y.state) nodes out :=
  ⟨(applyFactCheck_pointwise h).1, fun i x y hx hy =>
    ((applyFactCheck_pointwise h).2 i x y hx hy).2.2.2.2.2.2.2⟩

theorem applyAwarenessCampaign_stepOK (nodes : List SimNode) (shuf : List ℕ)
    (hperm : shuf.Perm (healthyIdx nodes)) :
    Pointwise (fun x y => StepOK x.state y.state) nodes
      (applyAwarenessCampaign nodes shuf) := by
  obtain ⟨hlen, hnd, hcnt, hmem, hout⟩ :=
    applyAwarenessCampaign_spec nodes shuf hperm
  refine ⟨hlen.symm, fun i x y hx hy => ?_⟩
  by_cases hi : i ∈ shuf.take (((healthyIdx nodes).length + 4) / 5)
  · obtain ⟨x1, hx1, hst, hy1⟩ := hmem i hi
    rw [hx1] at hx
    cases hx
    rw [hy1] at hy
    cases hy
    exact Or.inr (Or.inr (Or.inr ⟨hst, by rfl⟩))
  · rw [hout i hi, hx] at hy
    cases hy
    exact Or.inl (by rfl)

/-! The claims. -/

/-- C1: getStats always returns four counts summing to the node array
length, and generateNetwork, simulationTick, applyFactCheck and
applyAwarenessCampaign all preserve the array length (every node holds
exactly one of the four states, so the four filters partition the
array). -/
theorem claim_C1 :
    (∀ (nodes : List SimNode) (tick : ℤ),
      (getStats nodes tick).healthy + (getStats nodes tick).infected +
        (getStats nodes tick).recovered + (getStats nodes tick).aware =
        nodes.length) ∧
    (∀ (cfg : SimConfig) (width height : ℚ) (posX posY degDraw : ℕ → ℚ)
      (accept : ℕ → ℕ → Bool) (shuffled : List ℕ) (ns : List SimNode)
      (es : List SimEdge),
      generateNetwork cfg width height posX posY degDraw accept shuffled =
        some (ns, es) → ns.length = cfg.nodeCount) ∧
    (∀ (nodes : List SimNode) (cfg : SimConfig) (tick : ℤ)
      (draws : ℕ → ℕ → Bool) (out : List SimNode),
      simulationTick nodes cfg tick draws = some out →
      out.length = nodes.length) ∧
    (∀ (nodes : List SimNode) (nodeId : ℕ) (coin : ℕ → Bool)
      (out : List SimNode), applyFactCheck nodes nodeId coin = some out →
      out.length = nodes.length) ∧
    (∀ (nodes : List SimNode) (shuf : List ℕ),
      (applyAwarenessCampaign nodes shuf).length = nodes.length) :=
  ⟨getStats_sum,
   fun _ _ _ _ _ _ _ _ _ _ hgen => generateNetwork_length hgen,
   fun _ _ _ _ _ h => (simulationTick_pointwise h).1.symm,
   fun _ _ _ _ h => (applyFactCheck_pointwise h).1.symm,
   fun _ _ => applyAwarenessCampaign_weak.1.symm⟩

theorem claim_C1_witness :
    ((getStats wNodes 0).healthy + (getStats wNodes 0).infected +
      (getStats wNodes 0).recovered + (getStats wNodes 0).aware =
      wNodes.length) ∧
    wGenNodes.length = wCfg.nodeCount ∧
    wTickOut.length = wNodes.length ∧
    wFCOut.length = wNodes.length ∧
    (applyAwarenessCampaign wNodes [1]).length = wNodes.length :=
  ⟨claim_C1.1 wNodes 0,
   claim_C1.2.1 wCfg 200 200 wPosX wZero wZero wAcc [1, 0] wGenNodes wGenEdges
     (by with_unfolding_all decide),
   claim_C1.2.2.1 wNodes wCfg 1 wDrawsT wTickOut (by with_unfolding_all decide),
   claim_C1.2.2.2.1 wNodes 0 wCoinT wFCOut (by with_unfolding_all decide),
   claim_C1.2.2.2.2 wNodes [1]⟩

/-- C2: every state change any core operation performs follows a legal
edge of the state graph (healthy to infected, infected to recovered,
healthy to aware); recovered and aware are absorbing, and no slot moves
infected to aware. Within one simulationTick a slot can compose the two
legal edges healthy to infected to recovered only when recoveryTime is
not positive (the second disjunct); whenever recoveryTime is at least 1
(as in every configuration the program builds, DEFAULT_CONFIG has 30)
each slot moves along at most one legal edge per tick, so in particular
no slot ever goes directly healthy to recovered. -/
theorem claim_C2 :
    (∀ (nodes : List SimNode) (cfg : SimConfig) (tick : ℤ)
      (draws : ℕ → ℕ → Bool) (out : List SimNode),
      simulationTick nodes cfg tick draws = some out →
      Pointwise (fun x y => StepOK x.state y.state ∨
        (x.state = NodeState.healthy ∧ y.state = NodeState.recovered ∧
          cfg.recoveryTime ≤ 0)) nodes out) ∧
    (∀ (nodes : List SimNode) (cfg : SimConfig) (tick : ℤ)
      (draws : ℕ → ℕ → Bool) (out : List SimNode), 1 ≤ cfg.recoveryTime →
      simulationTick nodes cfg tick draws = some out →
      Pointwise (fun x y => StepOK x.state y.state) nodes out) ∧
    (∀ (nodes : List SimNode) (nodeId : ℕ) (coin : ℕ → Bool)
      (out : List SimNode), applyFactCheck nodes nodeId coin = some out →
      Pointwise (fun x y => StepOK x.state y.state) nodes out) ∧
    (∀ (nodes : List SimNode) (shuf : List ℕ),
      shuf.Perm (healthyIdx nodes) →
      Pointwise (fun x y => StepOK x.state y.state) nodes
        (applyAwarenessCampaign nodes shuf)) :=
  ⟨fun _ _ _ _ _ h => simulationTick_states h,
   fun _ _ _ _ _ hrt h => simulationTick_stepOK hrt h,
   fun _ _ _ _ h => applyFactCheck_stepOK h,
   fun nodes shuf hperm => applyAwarenessCampaign_stepOK nodes shuf hperm⟩

theorem claim_C2_witness :
    Pointwise (fun x y => StepOK x.state y.state ∨
      (x.state = NodeState.healthy ∧ y.state = NodeState.recovered ∧
        wCfg.recoveryTime ≤ 0)) wNodes wTickOut ∧
    Pointwise (fun x y => StepOK x.state y.state) wNodes wTickOut ∧
    Pointwise (fun x y => StepOK x.state y.state) wNodes wFCOut ∧
    Pointwise (fun x y => StepOK x.state y.state) wNodes
      (applyAwarenessCampaign wNodes [1]) :=
  ⟨claim_C2.1 wNodes wCfg 1 wDrawsT wTickOut (by with_unfolding_all decide),
   claim_C2.2.1 wNodes wCfg 1 wDrawsT wTickOut (by with_unfolding_all decide)
     (by with_unfolding_all decide),
   claim_C2.2.2.1 wNodes 0 wCoinT wFCOut (by with_unfolding_all decide),
   claim_C2.2.2.2 wNodes [1] (by with_unfolding_all decide)⟩

/-- C3: a slot that ends a simulationTick recovered without having
started recovered satisfies infectedAt + recoveryTime less or equal the
current tick (recovery never fires strictly before the threshold); a
slot that was already infected keeps its infection stamp; and when
recoveryTime is at least 1 a slot that was not infected at the start of
the tick (in particular one infected during this very tick) cannot end
the tick recovered. -/
theorem claim_C3 :
    ∀ (nodes : List SimNode) (cfg : SimConfig) (tick : ℤ)
      (draws : ℕ → ℕ → Bool) (out : List SimNode),
      simulationTick nodes cfg tick draws = some out →
      Pointwise (fun x y =>
        (y.state = NodeState.recovered → x.state ≠ NodeState.recovered →
          y.infectedAt + cfg.recoveryTime ≤ tick) ∧
        (x.state = NodeState.infected → y.infectedAt = x.infectedAt) ∧
        (1 ≤ cfg.recoveryTime → x.state ≠ NodeState.infected →
          x.state ≠ NodeState.recovered → y.state ≠ NodeState.recovered))
        nodes out := by
  intro nodes cfg tick draws out h
  have hpw := simulationTick_pointwise h
  refine ⟨hpw.1, fun i x y hx hy => ?_⟩
  obtain ⟨_, _, _, _, _, _, hcase⟩ := hpw.2 i x y hx hy
  refine ⟨?_, ?_, ?_⟩
  · intro hyr hxr
    rcases hcase with ⟨hs, _⟩ | ⟨_, ht, _⟩ | ⟨_, _, ha, hb⟩ | ⟨_, _, ha, hb⟩
    · exact absurd (hs.symm.trans hyr) hxr
    · exact absurd (ht.symm.trans hyr) (by simp)
    · omega
    · omega
  · intro hxi
    rcases hcase with ⟨_, ha⟩ | ⟨hs, _, _⟩ | ⟨_, _, ha, _⟩ | ⟨hs, _, _, _⟩
    · exact ha
    · exact absurd (hxi.symm.trans hs) (by simp)
    · exact ha
    · exact absurd (hxi.symm.trans hs) (by simp)
  · intro hrt hxni hxnr hyr
    rcases hcase with ⟨hs, _⟩ | ⟨_, ht, _⟩ | ⟨hs, _, _, _⟩ | ⟨_, _, _, hb⟩
    · exact hxnr (hs.symm.trans hyr)
    · exact absurd (ht.symm.trans hyr) (by simp)
    · exact hxni hs
    · omega

theorem claim_C3_witness :
    Pointwise (fun x y =>
      (y.state = NodeState.recovered → x.state ≠ NodeState.recovered →
        y.infectedAt + wCfg.recoveryTime ≤ 1) ∧
      (x.state = NodeState.infected → y.infectedAt = x.infectedAt) ∧
      (1 ≤ wCfg.recoveryTime → x.state ≠ NodeState.infected →
        x.state ≠ NodeState.recovered → y.state ≠ NodeState.recovered))
      wNodes wTickOut :=
  claim_C3 wNodes wCfg 1 wDrawsT wTickOut (by with_unfolding_all decide)

/-- C4: generateNetwork returns a symmetrically connected network (j in
i's list exactly when i is in j's), and every operation returns an array
with exactly the same connection list in every slot, hence preserves
symmetry. -/
theorem claim_C4 :
    (∀ (cfg : SimConfig) (width height : ℚ) (posX posY degDraw : ℕ → ℚ)
      (accept : ℕ → ℕ → Bool) (shuffled : List ℕ) (ns : List SimNode)
      (es : List SimEdge),
      generateNetwork cfg width height posX posY degDraw accept shuffled =
        some (ns, es) → Symm ns) ∧
    (∀ (nodes : List SimNode) (cfg : SimConfig) (tick : ℤ)
      (draws : ℕ → ℕ → Bool) (out : List SimNode),
      simulationTick nodes cfg tick draws = some out →
      ConnEq nodes out ∧ (Symm nodes → Symm out)) ∧
    (∀ (nodes : List SimNode) (nodeId : ℕ) (coin : ℕ → Bool)
      (out : List SimNode), applyFactCheck nodes nodeId coin = some out →
      ConnEq nodes out ∧ (Symm nodes → Symm out)) ∧
    (∀ (nodes : List SimNode) (shuf : List ℕ),
      ConnEq nodes (applyAwarenessCampaign nodes shuf) ∧
      (Symm nodes → Symm (applyAwarenessCampaign nodes shuf))) ∧
    (∀ (nodes : List SimNode) (edges : List SimEdge) (width height : ℚ)
      (hyp : ℚ → ℚ → ℚ) (out : List SimNode),
      applyForces nodes edges width height hyp = some out →
      ConnEq nodes out ∧ (Symm nodes → Symm out)) :=
  ⟨fun _ _ _ _ _ _ _ _ _ _ h => generateNetwork_symm h,
   fun _ _ _ _ _ h => ⟨simulationTick_connEq h,
     fun hs => Symm.of_connEq (simulationTick_connEq h) hs⟩,
   fun _ _ _ _ h => ⟨applyFactCheck_connEq h,
     fun hs => Symm.of_connEq (applyFactCheck_connEq h) hs⟩,
   fun nodes shuf => ⟨applyAwarenessCampaign_connEq nodes shuf,
     fun hs => Symm.of_connEq (applyAwarenessCampaign_connEq nodes shuf) hs⟩,
   fun _ _ _ _ _ _ h => ⟨applyForces_connEq h,
     fun hs => Symm.of_connEq (applyForces_connEq h) hs⟩⟩

theorem claim_C4_witness :
    Symm wGenNodes ∧
    ConnEq wNodes wTickOut ∧ Symm wTickOut ∧
    ConnEq wNodes wFCOut ∧ Symm wFCOut ∧
    ConnEq wNodes (applyAwarenessCampaign wNodes [1]) ∧
    ConnEq [wSolo] wForcesOut := by
  have hsymm : Symm wNodes := Symm.of_get (by with_unfolding_all decide)
  have htick := claim_C4.2.1 wNodes wCfg 1 wDrawsT wTickOut
    (by with_unfolding_all decide)
  have hfc := claim_C4.2.2.1 wNodes 0 wCoinT wFCOut
    (by with_unfolding_all decide)
  have hforce := claim_C4.2.2.2.2 [wSolo] [] 200 200 (fun _ _ => 1) wForcesOut
    (by with_unfolding_all decide)
  exact ⟨claim_C4.1 wCfg 200 200 wPosX wZero wZero wAcc [1, 0] wGenNodes
      wGenEdges (by with_unfolding_all decide),
    htick.1, htick.2 hsymm, hfc.1, hfc.2 hsymm,
    (claim_C4.2.2.2.1 wNodes [1]).1, hforce.1⟩

/-- C5: the spec requires generateNetwork not to crash when
initialInfected exceeds nodeCount (clamping the seed count); the seeding
loop instead reads shuffled[i] past the end of the id list (undefined in
JS) and the following nodes[undefined].state assignment is a TypeError,
modelled none: with nodeCount 1 and initialInfected 2 generation faults
instead of clamping. -/
theorem claim_C5 :
    generateNetwork cxCfgSeed 200 200 wZero wZero wZero wAcc [0] = none := by
  with_unfolding_all decide

/-- C6 counterexample: on a one-node array, applyFactCheck with the
out-of-range id 5 faults (none, the modelled TypeError) instead of
returning the array unchanged as the claim states. -/
theorem claim_C6_counterexample :
    applyFactCheck [wSolo] 5 (fun _ => false) = none ∧
    applyFactCheck [wSolo] 5 (fun _ => false) ≠ some [wSolo] := by
  with_unfolding_all decide

/-- C6 (amended): for every node id outside the valid range,
applyFactCheck faults reading the missing target's state (a TypeError in
JS, modelled none) rather than being a no-op that returns the array
unchanged. -/
theorem claim_C6 :
    ∀ (nodes : List SimNode) (nodeId : ℕ) (coin : ℕ → Bool),
      nodes.length ≤ nodeId → applyFactCheck nodes nodeId coin = none := by
  intro nodes nodeId coin hlen
  unfold applyFactCheck
  rw [List.getElem?_eq_none hlen]

theorem claim_C6_witness :
    [wSolo].length ≤ 5 ∧ applyFactCheck [wSolo] 5 wCoinT = none :=
  ⟨by decide, claim_C6 [wSolo] 5 wCoinT (by decide)⟩

/-- C7 counterexample: at connectionDensity 3 with uniform draw 3/4
(u = 1/2) the code computes max(1, floor(3.5)) = 3 while the spec
formula max(1, round(3.5)) gives 4, so the target degree is not computed
by rounding. -/
theorem claim_C7_counterexample :
    (targetConns 3 (3/4) : ℤ) ≠ specTargetDegree 3 ((3/4 - 1/2) * 2) := by
  with_unfolding_all decide

/-- C7 (amended): the per-node target degree generateNetwork uses is
max(1, floor(connectionDensity + u)) — floor, not round — where
u = (r - 1/2) * 2 ranges over [-1, 1) for the uniform draw r in [0, 1),
and the result is always at least 1. -/
theorem claim_C7 :
    ∀ (d r : ℚ), 0 ≤ r → r < 1 →
      (targetConns d r : ℤ) = max 1 ⌊d + (r - 1/2) * 2⌋ ∧
      (-1 ≤ (r - 1/2) * 2 ∧ (r - 1/2) * 2 < 1) ∧ 1 ≤ targetConns d r := by
  intro d r h0 h1
  refine ⟨?_, ⟨by linarith, by linarith⟩, targetConns_pos d r⟩
  unfold targetConns
  exact Int.toNat_of_nonneg (le_trans (by norm_num) (le_max_left 1 _))

theorem claim_C7_witness :
    (0 ≤ (3/4 : ℚ) ∧ (3/4 : ℚ) < 1) ∧
    (targetConns 3 (3/4) : ℤ) = max 1 ⌊(3:ℚ) + (3/4 - 1/2) * 2⌋ :=
  ⟨⟨by norm_num, by norm_num⟩,
    (claim_C7 3 (3/4) (by norm_num) (by norm_num)).1⟩

/-- C8 counterexample: with nodeCount 1 the sole node has no candidates,
so generation succeeds but returns it with an empty connection list —
degree 0 — refuting the claim for configs with fewer than two nodes. -/
theorem claim_C8_counterexample :
    (generateNetwork cxCfgOne 200 200 wZero wZero wZero wAcc [0]).map
      (fun r => r.1.map SimNode.connections) = some [[]] := by
  with_unfolding_all decide

/-- C8 (amended): for every config with at least two nodes, every node
of the generated network has degree at least 1 regardless of
connectionDensity: a node whose connection list is still empty accepts
its first candidate unconditionally, and connection lists only grow
afterwards. -/
theorem claim_C8 :
    ∀ (cfg : SimConfig) (width height : ℚ) (posX posY degDraw : ℕ → ℚ)
      (accept : ℕ → ℕ → Bool) (shuffled : List ℕ) (ns : List SimNode)
      (es : List SimEdge), 2 ≤ cfg.nodeCount →
      generateNetwork cfg width height posX posY degDraw accept shuffled =
        some (ns, es) → ∀ nd ∈ ns, nd.connections ≠ [] :=
  fun _ _ _ _ _ _ _ _ _ _ h2 h => generateNetwork_minDeg h2 h

theorem claim_C8_witness :
    2 ≤ wCfg.nodeCount ∧ ∀ nd ∈ wGenNodes, nd.connections ≠ [] :=
  ⟨by with_unfolding_all decide,
   claim_C8 wCfg 200 200 wPosX wZero wZero wAcc [1, 0] wGenNodes wGenEdges
     (by with_unfolding_all decide) (by with_unfolding_all decide)⟩

/-- C9: applyFactCheck transitions the target to recovered exactly when
it is infected (a healthy, recovered or aware target keeps its state),
flips each currently-healthy neighbour to aware exactly when its
independent coin (Math.random() < 0.5) is true, and leaves every other
slot untouched; stated for well-formed targets (no self-loop,
duplicate-free connection list, neighbours in range), as generation
guarantees. -/
theorem claim_C9 :
    ∀ (nodes : List SimNode) (targetId : ℕ) (coin : ℕ → Bool)
      (target : SimNode), nodes[targetId]? = some target →
      targetId ∉ target.connections → target.connections.Nodup →
      (∀ j ∈ target.connections, j < nodes.length) →
      ∃ out, applyFactCheck nodes targetId coin = some out ∧
        out.length = nodes.length ∧
        out[targetId]? = some { target with state :=
          if target.state = NodeState.infected then NodeState.recovered
          else target.state } ∧
        (∀ k j, target.connections[k]? = some j → ∀ x, nodes[j]? = some x →
          out[j]? = some (if x.state = NodeState.healthy ∧ coin k = true
            then { x with state := NodeState.aware } else x)) ∧
        (∀ j, j ∉ target.connections → j ≠ targetId →
          out[j]? = nodes[j]?) :=
  fun _ _ _ _ h1 h2 h3 h4 => applyFactCheck_spec h1 h2 h3 h4

theorem claim_C9_witness :
    (wNodes[0]? = some wInfected ∧ 0 ∉ wInfected.connections ∧
      wInfected.connections.Nodup ∧
      (∀ j ∈ wInfected.connections, j < wNodes.length)) ∧
    ∃ out, applyFactCheck wNodes 0 wCoinT = some out ∧
      out.length = wNodes.length ∧
      out[0]? = some { wInfected with state :=
        if wInfected.state = NodeState.infected then NodeState.recovered
        else wInfected.state } ∧
      (∀ k j, wInfected.connections[k]? = some j → ∀ x, wNodes[j]? = some x →
        out[j]? = some (if x.state = NodeState.healthy ∧ wCoinT k = true
          then { x with state := NodeState.aware } else x)) ∧
      (∀ j, j ∉ wInfected.connections → j ≠ 0 → out[j]? = wNodes[j]?) :=
  ⟨⟨by with_unfolding_all decide, by with_unfolding_all decide,
    by with_unfolding_all decide, by with_unfolding_all decide⟩,
   claim_C9 wNodes 0 wCoinT wInfected (by with_unfolding_all decide)
     (by with_unfolding_all decide) (by with_unfolding_all decide)
     (by with_unfolding_all decide)⟩

/-- C10: with the injected shuffle a permutation of the healthy index
set (as the sort-with-random-comparator shuffle of the healthy
references guarantees), applyAwarenessCampaign transitions exactly
ceil(h/5) distinct healthy slots — the prefix of the shuffle — to
aware, where h counts the healthy nodes, preserves the length, leaves
every other slot untouched, and is a no-op raising no error when h is
zero. -/
theorem claim_C10 :
    ∀ (nodes : List SimNode) (shuf : List ℕ),
      shuf.Perm (healthyIdx nodes) →
      ((applyAwarenessCampaign nodes shuf).length = nodes.length ∧
        (shuf.take (((healthyIdx nodes).length + 4) / 5)).Nodup ∧
        (shuf.take (((healthyIdx nodes).length + 4) / 5)).length =
          ((healthyIdx nodes).length + 4) / 5 ∧
        (∀ idx ∈ shuf.take (((healthyIdx nodes).length + 4) / 5),
          ∃ x, nodes[idx]? = some x ∧ x.state = NodeState.healthy ∧
            (applyAwarenessCampaign nodes shuf)[idx]? =
              some { x with state := NodeState.aware }) ∧
        (∀ idx, idx ∉ shuf.take (((healthyIdx nodes).length + 4) / 5) →
          (applyAwarenessCampaign nodes shuf)[idx]? = nodes[idx]?)) ∧
      ((healthyIdx nodes).length = 0 →
        applyAwarenessCampaign nodes shuf = nodes) := by
  intro nodes shuf hperm
  refine ⟨applyAwarenessCampaign_spec nodes shuf hperm, fun h0 => ?_⟩
  have hn : healthyIdx nodes = [] := List.length_eq_zero.mp h0
  have hs : shuf = [] := List.perm_nil.mp (hn ▸ hperm)
  subst hs
  unfold applyAwarenessCampaign
  rw [List.take_nil, List.foldl_nil]

theorem claim_C10_witness :
    [1].Perm (healthyIdx wNodes) ∧
    (((applyAwarenessCampaign wNodes [1]).length = wNodes.length ∧
      ([1].take (((healthyIdx wNodes).length + 4) / 5)).Nodup ∧
      ([1].take (((healthyIdx wNodes).length + 4) / 5)).length =
        ((healthyIdx wNodes).length + 4) / 5 ∧
      (∀ idx ∈ [1].take (((healthyIdx wNodes).length + 4) / 5),
        ∃ x, wNodes[idx]? = some x ∧ x.state = NodeState.healthy ∧
          (applyAwarenessCampaign wNodes [1])[idx]? =
            some { x with state := NodeState.aware }) ∧
      (∀ idx, idx ∉ [1].take (((healthyIdx wNodes).length + 4) / 5) →
        (applyAwarenessCampaign wNodes [1])[idx]? = wNodes[idx]?)) ∧
      ((healthyIdx wNodes).length = 0 →
        applyAwarenessCampaign wNodes [1] = wNodes)) :=
  ⟨by with_unfolding_all decide,
   claim_C10 wNodes [1] (by with_unfolding_all decide)⟩

end TruthWeaver
